import Mathlib

/-!
Domain-Checker-Tool: a shallow embedding of `domain_checker.go`.

The Go program is embedded as follows.

* Go strings are Lean strings (sequences of Unicode code points; the input is taken to be
  valid UTF-8).  Go `int` is `Int`; the only place where its width matters is the scan of the
  status codes, which is modelled for 64 bits.
* Every call that leaves the program (DNS lookup, HTTP client, headless browser, file system,
  console) is a constructor of the effect tree `Prog`.  The continuation of a constructor
  receives the answer of the outside world, so a `Prog` describes the behaviour of the code
  under every behaviour of its collaborators.
* A `World` gives the answers as functions of the history (the list of `Event`s so far);
  `Prog.run` executes a tree sequentially, `Prog.step` executes a single effect, which is what
  the scheduler of the goroutines of `checkAllDomains` interleaves.
* `checkAllDomains` is a transition system: the calling goroutine, one goroutine per domain,
  the buffered channel `sem` and the wait group `wg`; a schedule is the list of the goroutines
  that move.
* The library functions `strings.TrimSpace`, `strings.Split` and `fmt.Sscanf` with verb `%d`
  are modelled after the Go standard library; `os.Open` and `bufio.Scanner` are represented by
  what they deliver to `readDomainsFromFile`.

The file has two parts: the definitions, then the lemmas and the theorems for the claims.
-/

namespace DomainChecker

/-! Part 1: definitions. -/

/-- The part of `*http.Response` the program reads: `StatusCode`, `Request.URL.String()` and
`Request.URL.Hostname()` (the request is the last one issued after redirects). -/
structure Response where
  StatusCode : Int
  URLString : String
  URLHostname : String
  deriving DecidableEq, Repr

/-- The package-level configuration variables (`timeout` is real time and is not modelled).
The two counts are natural numbers: a negative `retryCount` would mean no attempt at all, and
`make` accepts no negative capacity. -/
structure Config where
  successStatusCodes : List Int
  retryCount : Nat
  maxConcurrentChecks : Nat
  deriving DecidableEq, Repr

/-- The values of the `var ( ... )` block. -/
def defaultConfig : Config :=
  { successStatusCodes := [200], retryCount := 2, maxConcurrentChecks := 100 }

/-- One observable interaction with the outside world together with the answer received. -/
inductive Event where
  | LookupHost (host : String) (ok : Bool)
  | Do (url : String) (resp : Option Response)
  | chromedpRun (url : String) (ok : Bool)
  | OpenFile (filename : String) (ok : Bool)
  | WriteString (filename text : String) (n : Nat)
  | Printf (text : String)
  deriving DecidableEq, Repr

/-- Effect trees: a program either returns or performs one external call and continues with
the answer.
* `LookupHost h`: `net.LookupHost(h)`, answer `err == nil`;
* `NewRequest u`: `http.NewRequest("GET", u, nil)`, answer `err == nil`;
* `Do u`: `client.Do(req)` for the request built from `u`; `none` is a transport error,
  `some r` a received response;
* `chromedpRun u`: `chromedp.Run(ctx, Navigate(u), Title(&title))`, answer `err == nil`;
* `OpenFile f`: `os.OpenFile(f, O_APPEND|O_CREATE|O_WRONLY, 0644)`, answer `err == nil`;
* `WriteString f s`: `io.WriteString(file, s)`, answer the number of characters written;
* `Printf s`: `fmt.Printf` of the formatted text `s`. -/
inductive Prog (α : Type) : Type where
  | ret (a : α)
  | LookupHost (host : String) (k : Bool → Prog α)
  | NewRequest (url : String) (k : Bool → Prog α)
  | Do (url : String) (k : Option Response → Prog α)
  | chromedpRun (url : String) (k : Bool → Prog α)
  | OpenFile (filename : String) (k : Bool → Prog α)
  | WriteString (filename text : String) (k : Nat → Prog α)
  | Printf (text : String) (k : Prog α)

/-- Sequencing of effect trees. -/
def Prog.bind {α β : Type} : Prog α → (α → Prog β) → Prog β
  | .ret a, f => f a
  | .LookupHost h k, f => .LookupHost h (fun b => (k b).bind f)
  | .NewRequest u k, f => .NewRequest u (fun b => (k b).bind f)
  | .Do u k, f => .Do u (fun r => (k r).bind f)
  | .chromedpRun u k, f => .chromedpRun u (fun b => (k b).bind f)
  | .OpenFile n k, f => .OpenFile n (fun b => (k b).bind f)
  | .WriteString n s k, f => .WriteString n s (fun m => (k m).bind f)
  | .Printf s k, f => .Printf s (k.bind f)

instance : Monad Prog where
  pure := Prog.ret
  bind := Prog.bind

/-- The outside world: every answer may depend on everything that happened before.
`NewRequest` only parses its argument, so its answer depends on the URL alone. -/
structure World where
  LookupHost : List Event → String → Bool
  NewRequest : String → Bool
  Do : List Event → String → Option Response
  chromedpRun : List Event → String → Bool
  OpenFile : List Event → String → Bool
  WriteString : List Event → String → String → Nat

/-- One effect of a program against the world `w` with history `t`: the rest of the program
and the events produced; `none` when the program has returned. -/
def Prog.step {α : Type} (w : World) (t : List Event) : Prog α → Option (Prog α × List Event)
  | .ret _ => none
  | .LookupHost h k => let ok := w.LookupHost t h; some (k ok, [Event.LookupHost h ok])
  | .NewRequest u k => some (k (w.NewRequest u), [])
  | .Do u k => let r := w.Do t u; some (k r, [Event.Do u r])
  | .chromedpRun u k => let ok := w.chromedpRun t u; some (k ok, [Event.chromedpRun u ok])
  | .OpenFile n k => let ok := w.OpenFile t n; some (k ok, [Event.OpenFile n ok])
  | .WriteString n s k => let m := w.WriteString t n s; some (k m, [Event.WriteString n s m])
  | .Printf s k => some (k, [Event.Printf s])

/-- Sequential execution of a program to its end against the world `w`, starting with history
`t`: the returned value and the events produced, in order. -/
def Prog.run {α : Type} (w : World) : Prog α → List Event → α × List Event
  | .ret a, _ => (a, [])
  | .LookupHost h k, t =>
      let e := Event.LookupHost h (w.LookupHost t h)
      let r := (k (w.LookupHost t h)).run w (t ++ [e])
      (r.1, e :: r.2)
  | .NewRequest u k, t => (k (w.NewRequest u)).run w t
  | .Do u k, t =>
      let e := Event.Do u (w.Do t u)
      let r := (k (w.Do t u)).run w (t ++ [e])
      (r.1, e :: r.2)
  | .chromedpRun u k, t =>
      let e := Event.chromedpRun u (w.chromedpRun t u)
      let r := (k (w.chromedpRun t u)).run w (t ++ [e])
      (r.1, e :: r.2)
  | .OpenFile n k, t =>
      let e := Event.OpenFile n (w.OpenFile t n)
      let r := (k (w.OpenFile t n)).run w (t ++ [e])
      (r.1, e :: r.2)
  | .WriteString n s k, t =>
      let e := Event.WriteString n s (w.WriteString t n s)
      let r := (k (w.WriteString t n s)).run w (t ++ [e])
      (r.1, e :: r.2)
  | .Printf s k, t =>
      let r := k.run w (t ++ [Event.Printf s])
      (r.1, Event.Printf s :: r.2)

/-- The function `contains`: linear search of an `int` slice. -/
def contains : List Int → Int → Bool
  | [], _ => false
  | v :: rest, item => if v = item then true else contains rest item

/-- The function `appendToFile`: open for appending; an open error returns silently, a write
error is ignored (the deferred `file.Close()` has no effect that the program observes). -/
def appendToFile (filename text : String) : Prog Unit :=
  Prog.OpenFile filename fun ok =>
    if !ok then Prog.ret ()
    else Prog.WriteString filename text fun _ => Prog.ret ()

/-- The function `isDomainResolvable`: `err == nil` of `net.LookupHost`. -/
def isDomainResolvable (domain : String) : Prog Bool :=
  Prog.LookupHost domain fun ok => Prog.ret ok

/-- The function `browserCheck`: `false` when `chromedp.Run` reports an error, `true` otherwise. -/
def browserCheck (url : String) : Prog Bool :=
  Prog.chromedpRun url fun ok => if !ok then Prog.ret false else Prog.ret true

/-- The loop of `tryRequest`, by the number `retryCount - attempt` of iterations left.  A
request that cannot be built skips to the next iteration (`continue`); a response ends the
loop; a transport error goes on. -/
def tryRequestLoop (url : String) : Nat → Prog (Option Response)
  | 0 => Prog.ret none
  | remaining + 1 =>
      Prog.NewRequest url fun ok =>
        if !ok then tryRequestLoop url remaining
        else Prog.Do url fun r =>
          match r with
          | some resp => Prog.ret (some resp)
          | none => tryRequestLoop url remaining

/-- The function `tryRequest`: `some resp` for `(resp, nil)`, `none` for the error `request failed`. -/
def tryRequest (cfg : Config) (url : String) : Prog (Option Response) :=
  tryRequestLoop url cfg.retryCount

/-- The value of `redirectInfo` (lines 121-126 of `checkDomain`): empty unless the hostname of
the final request differs from the domain. -/
def redirectInfo (domain : String) (response : Response) : String :=
  let originalHostname := domain
  let finalHostname := response.URLHostname
  if originalHostname ≠ finalHostname then " (Redirected to: " ++ finalHostname ++ ")" else ""

/-- The body of the `if err == nil && contains(...)` of `checkDomain` up to the recording
(lines 120-135): browser check on the final URL, then one record. -/
def recordAccepted (domain url : String) (response : Response) : Prog Unit := do
  let finalURL := response.URLString
  let browserResult ← browserCheck finalURL
  if browserResult then do
    Prog.Printf
      ("Active: " ++ url ++ " (Status Code: " ++ toString response.StatusCode ++ ")"
        ++ redirectInfo domain response ++ "\n") (pure ())
    appendToFile "active_domains.txt" (url ++ redirectInfo domain response ++ "\n")
  else
    appendToFile "inactive_domains.txt" (domain ++ "\n")

/-- The `for _, protocol := range protocols` loop of `checkDomain`; the result is the final
value of `isActive`. -/
def checkProtocols (cfg : Config) (domain : String) : List String → Prog Bool
  | [] => pure false
  | protocol :: rest => do
      let url := protocol ++ domain
      let result ← tryRequest cfg url
      match result with
      | some response =>
          if contains cfg.successStatusCodes response.StatusCode then do
            recordAccepted domain url response
            pure true
          else checkProtocols cfg domain rest
      | none => checkProtocols cfg domain rest

/-- The function `checkDomain`: resolution, the probes in the order http, https, the browser
check of the first accepted response, and exactly one record. -/
def checkDomain (cfg : Config) (domain : String) : Prog Unit := do
  let resolvable ← isDomainResolvable domain
  if !resolvable then
    appendToFile "inactive_domains.txt" (domain ++ "\n")
  else do
    let isActive ← checkProtocols cfg domain ["http://", "https://"]
    if !isActive then
      appendToFile "inactive_domains.txt" (domain ++ "\n")
    else pure ()

/-- A world with constant answers and a working file system. -/
def constWorld (dns : Bool) (http : Option Response) (render : Bool) : World :=
  { LookupHost := fun _ _ => dns
    NewRequest := fun _ => true
    Do := fun _ _ => http
    chromedpRun := fun _ _ => render
    OpenFile := fun _ _ => true
    WriteString := fun _ _ s => s.length }

/-- The history after `k` transport failures for `url`. -/
def afterFailures (url : String) (t : List Event) (k : Nat) : List Event :=
  t ++ List.replicate k (Event.Do url none)

/-- The test `err == nil && contains(successStatusCodes, response.StatusCode)` of
`checkDomain` on the result of a probe. -/
def accepted (cfg : Config) : Option Response → Bool
  | some response => contains cfg.successStatusCodes response.StatusCode
  | none => false

/-- The first accepted probe: the probes of `http://D` and then `https://D`, the second one
issued after the events of the first; the result is the scheme and the response of the first
probe answered with an accepted status, with the events up to that answer. -/
def firstAccepted (w : World) (cfg : Config) (domain : String) (t : List Event) :
    Option (String × Response × List Event) :=
  let p1 := (tryRequest cfg ("http://" ++ domain)).run w t
  let p2 := (tryRequest cfg ("https://" ++ domain)).run w (t ++ p1.2)
  if accepted cfg p1.1 = true then p1.1.map fun r => ("http://", r, p1.2)
  else if accepted cfg p2.1 = true then p2.1.map fun r => ("https://", r, p1.2 ++ p2.2)
  else none

/-- The events of both probes, for a domain none of whose probes is accepted. -/
def bothProbes (w : World) (cfg : Config) (domain : String) (t : List Event) : List Event :=
  let p1 := (tryRequest cfg ("http://" ++ domain)).run w t
  let p2 := (tryRequest cfg ("https://" ++ domain)).run w (t ++ p1.2)
  p1.2 ++ p2.2

/-- File-system events. -/
def Event.isFile : Event → Bool
  | .OpenFile _ _ => true
  | .WriteString _ _ _ => true
  | _ => false

/-- HTTP requests. -/
def Event.isDo : Event → Bool
  | .Do _ _ => true
  | _ => false

/-- Browser checks. -/
def Event.isBrowser : Event → Bool
  | .chromedpRun _ _ => true
  | _ => false

/-- Console lines. -/
def Event.isPrintf : Event → Bool
  | .Printf _ => true
  | _ => false

/-- Whether `appendToFile` was called on `filename`: the file was opened for appending. -/
def appendsTo (filename : String) (evs : List Event) : Bool :=
  evs.any fun e =>
    match e with
    | .OpenFile f _ => decide (f = filename)
    | _ => false

/-- Whether a text was written to `filename`: `io.WriteString` was called on the file. -/
def writesTo (filename : String) (evs : List Event) : Bool :=
  evs.any fun e =>
    match e with
    | .WriteString f _ _ => decide (f = filename)
    | _ => false

/-- A world whose file system never fails: every open succeeds and every write is complete. -/
def World.filesOk (w : World) : Prop :=
  ∀ t f, w.OpenFile t f = true ∧ ∀ s, w.WriteString t f s = s.length

/-- The console line of an active domain. -/
def activeLine (scheme domain : String) (r : Response) : String :=
  "Active: " ++ (scheme ++ domain) ++ " (Status Code: " ++ toString r.StatusCode ++ ")" ++
    redirectInfo domain r ++ "\n"

/-- A prober that fails at the transport level twice and answers from the third attempt on. -/
def flakyWorld : World :=
  { LookupHost := fun _ _ => true
    NewRequest := fun _ => true
    Do := fun t u =>
      if (t.filter Event.isDo).length < 2 then none
      else some { StatusCode := 200, URLString := u, URLHostname := "example.com" }
    chromedpRun := fun _ _ => true
    OpenFile := fun _ _ => true
    WriteString := fun _ _ s => s.length }

/-- The predicate `unicode.IsSpace`: the Unicode white space characters, by code point. -/
def isSpace (c : Char) : Bool :=
  let n := c.toNat
  n == 0x09 || n == 0x0A || n == 0x0B || n == 0x0C || n == 0x0D || n == 0x20 || n == 0x85 ||
    n == 0xA0 || n == 0x1680 || (0x2000 ≤ n && n ≤ 0x200A) || n == 0x2028 || n == 0x2029 ||
    n == 0x202F || n == 0x205F || n == 0x3000

/-- The function `strings.TrimSpace`: the string without its leading and trailing white space. -/
def TrimSpace (s : String) : String :=
  ⟨List.rdropWhile isSpace (s.data.dropWhile isSpace)⟩

/-- The function `strings.Split(s, ",")` on the characters of `s`: the pieces between the commas, one more
than there are commas. -/
def splitComma : List Char → List (List Char)
  | [] => [[]]
  | c :: cs =>
      if c = ',' then [] :: splitComma cs
      else
        match splitComma cs with
        | piece :: pieces => (c :: piece) :: pieces
        | [] => [[c]]

/-- The function `strings.Split(s, ",")`. -/
def Split (s : String) : List String :=
  (splitComma s.data).map String.mk

/-- The method `SkipSpace` of package `fmt` as `Sscanf` uses it: leading blanks are skipped, a newline is
an error (`none`). -/
def SkipSpace : List Char → Option (List Char)
  | [] => some []
  | r :: rest =>
      if r = '\r' ∧ rest.head? = some '\n' then SkipSpace rest
      else if r = '\n' then none
      else if isSpace r then SkipSpace rest
      else some (r :: rest)

/-- The value of a run of decimal digits. -/
def digitsValue (ds : List Char) : Nat :=
  ds.foldl (fun acc c => 10 * acc + (c.toNat - 48)) 0

/-- The optional sign of a number (`s.accept("+-")`): whether it is a minus, and the rest. -/
def acceptSign : List Char → Bool × List Char
  | '+' :: r => (false, r)
  | '-' :: r => (true, r)
  | r => (false, r)

/-- The verb `%d` of `fmt.Sscanf` into an `int` (64 bits): after the blanks an optional sign and
the longest run of decimal digits, which must not be empty and whose value must fit in 64 bits;
what follows the digits is left unread.  `none` when the scan fails. -/
def scanInt (input : List Char) : Option Int :=
  match SkipSpace input with
  | none => none
  | some rest =>
      let signed := acceptSign rest
      let digits := signed.2.takeWhile Char.isDigit
      if digits = [] then none
      else
        let i : Int := if signed.1 then -(digitsValue digits : Int) else (digitsValue digits : Int)
        if -(2 : Int) ^ 63 ≤ i ∧ i < (2 : Int) ^ 63 then some i else none

/-- The statements `var code int; fmt.Sscanf(s, "%d", &code)`: the final value of `code`; the error of `Sscanf`
is discarded and a failed scan leaves `code` at zero. -/
def Sscanf (s : String) : Int :=
  match scanInt s.data with
  | some i => i
  | none => 0

/-- The loop of `main` over the entries of the status-codes argument. -/
def parseCodes : List String → List Int → List Int
  | [], successStatusCodes => successStatusCodes
  | codeStr :: codes, successStatusCodes =>
      let code := Sscanf (TrimSpace codeStr)
      parseCodes codes (successStatusCodes ++ [code])

/-- The accepted status codes after the argument handling of `main` (`args` is `os.Args`):
`none` when the program prints its usage line and exits, for fewer than two arguments;
otherwise the default, replaced by the parsed list when a third argument is present. -/
def mainStatusCodes (args : List String) : Option (List Int) :=
  if args.length < 2 then none
  else if args.length ≥ 3 then some (parseCodes (Split (args.getD 2 "")) [])
  else some defaultConfig.successStatusCodes

/-- What `os.Open` and the `bufio.Scanner` over the file deliver: the texts of the successive
`scanner.Scan()` calls (the lines, without their end-of-line markers) and `scanner.Err()`. -/
structure ScannedFile where
  lines : List String
  err : Option String
  deriving DecidableEq, Repr

/-- The `for scanner.Scan()` loop of `readDomainsFromFile`. -/
def scanDomains : List String → List String → List String
  | [], domains => domains
  | text :: rest, domains =>
      let domain := TrimSpace text
      if domain ≠ "" then scanDomains rest (domains ++ [domain])
      else scanDomains rest domains

/-- The function `readDomainsFromFile`; `openFile` is `os.Open`, answering with an error or the scanned
file.  The result is the pair `(domains, err)`. -/
def readDomainsFromFile (openFile : String → Except String ScannedFile) (fileName : String) :
    List String × Option String :=
  match openFile fileName with
  | .error err => ([], some err)
  | .ok file => (scanDomains file.lines [], file.err)

/-- The claim's reading of a well-formed entry: an optional sign followed by one or more
decimal digits and nothing else. -/
def isDecimalInteger (s : String) : Bool :=
  match s.data with
  | '+' :: ds => !ds.isEmpty && ds.all Char.isDigit
  | '-' :: ds => !ds.isEmpty && ds.all Char.isDigit
  | ds => !ds.isEmpty && ds.all Char.isDigit

/-- The claim's reading of the value of an entry: a decimal integer contributes itself, every
other entry contributes zero. -/
def claimedCode (entry : String) : Int :=
  if isDecimalInteger (TrimSpace entry) = true then
    match (TrimSpace entry).data with
    | '+' :: ds => (digitsValue ds : Int)
    | '-' :: ds => -(digitsValue ds : Int)
    | ds => (digitsValue ds : Int)
  else 0

/-- Where a goroutine started by `checkAllDomains` stands. -/
inductive Phase where
  -- started, at `sem <- struct{}{}`
  | blocked
  -- slot acquired, inside `checkDomain(domain)`; `rest` is what is left of the call
  | inCheck (rest : Prog Unit)
  -- `<-sem` executed, the deferred `wg.Done()` still to run
  | released
  -- `wg.Done()` executed
  | done

/-- A goroutine: its argument, where it stands, and (a history variable) the events it has
performed so far. -/
structure Goroutine where
  domain : String
  phase : Phase
  log : List Event

/-- The state of a run of `checkAllDomains`. -/
structure State where
  -- the domains the `for` loop has not reached yet
  pending : List String
  -- `wg.Add(1)` has been executed for the head of `pending`, its `go` statement not yet
  added : Bool
  -- `wg.Wait()` has returned
  returned : Bool
  -- the counter of the wait group
  wg : Int
  -- the number of elements in the buffer of the channel `sem`
  sem : Nat
  -- the goroutines started so far
  gs : List Goroutine
  -- everything that happened so far
  trace : List Event

/-- The state at the call of `checkAllDomains(domains)`. -/
def State.init (domains : List String) : State :=
  { pending := domains, added := false, returned := false, wg := 0, sem := 0, gs := [],
    trace := [] }

/-- One step of the calling goroutine: `wg.Add(1)`, the `go` statement, or the return of
`wg.Wait()`, which is possible only when the counter is zero. -/
def stepMain (s : State) : Option State :=
  match s.pending with
  | domain :: rest =>
      if s.added then
        some { s with pending := rest, added := false,
                      gs := s.gs ++ [{ domain := domain, phase := Phase.blocked, log := [] }] }
      else some { s with added := true, wg := s.wg + 1 }
  | [] =>
      if s.returned then none
      else if s.wg = 0 then some { s with returned := true }
      else none

/-- One step of the goroutine number `i`: the send on `sem` (possible only when the buffer of
capacity `maxConcurrentChecks` is not full), one effect of `checkDomain`, the receive from `sem`
after `checkDomain` has returned (possible only when the buffer is not empty), or the deferred
`wg.Done()`. -/
def stepGoroutine (w : World) (cfg : Config) (i : Nat) (s : State) : Option State :=
  match s.gs[i]? with
  | none => none
  | some g =>
      match g.phase with
      | Phase.blocked =>
          if s.sem < cfg.maxConcurrentChecks then
            some { s with
              sem := s.sem + 1,
              gs := s.gs.set i { g with phase := Phase.inCheck (checkDomain cfg g.domain) } }
          else none
      | Phase.inCheck rest =>
          match rest.step w s.trace with
          | some (rest1, evs) =>
              some { s with
                trace := s.trace ++ evs,
                gs := s.gs.set i { g with phase := Phase.inCheck rest1, log := g.log ++ evs } }
          | none =>
              if 0 < s.sem then
                some { s with
                  sem := s.sem - 1,
                  gs := s.gs.set i { g with phase := Phase.released } }
              else none
      | Phase.released =>
          some { s with wg := s.wg - 1, gs := s.gs.set i { g with phase := Phase.done } }
      | Phase.done => none

/-- One step of the scheduler's choice: `none` is the calling goroutine, `some i` the goroutine
number `i`.  The result is `none` when the chosen goroutine cannot move. -/
def step (w : World) (cfg : Config) (choice : Option Nat) (s : State) : Option State :=
  match choice with
  | none => stepMain s
  | some i => stepGoroutine w cfg i s

/-- The run under a schedule. -/
def exec (w : World) (cfg : Config) : List (Option Nat) → State → Option State
  | [], s => some s
  | choice :: rest, s =>
      match step w cfg choice s with
      | none => none
      | some s1 => exec w cfg rest s1

/-- The function `checkAllDomains`: the state reached from the call `checkAllDomains(domains)`
when the goroutines move as the schedule says; `none` when the schedule asks a goroutine that
cannot move to move. -/
def checkAllDomains (w : World) (cfg : Config) (domains : List String)
    (schedule : List (Option Nat)) : Option State :=
  exec w cfg schedule (State.init domains)

/-- Whether a goroutine holds a slot of the semaphore: it is between its send on `sem` and its
receive from `sem`, that is, its `checkDomain` call is in flight. -/
def Goroutine.inFlight (g : Goroutine) : Bool :=
  match g.phase with
  | Phase.inCheck _ => true
  | _ => false

/-- The number of evaluations in flight. -/
def State.inFlight (s : State) : Nat :=
  (s.gs.filter Goroutine.inFlight).length

/-- Every complete behaviour of the program, whatever the answers of the outside world,
produces a list of events and a result that satisfy `Q`. -/
def Prog.all {α : Type} : Prog α → (List Event → α → Prop) → Prop
  | .ret a, Q => Q [] a
  | .LookupHost h k, Q => ∀ b, (k b).all (fun evs a => Q (Event.LookupHost h b :: evs) a)
  | .NewRequest _ k, Q => ∀ b, (k b).all Q
  | .Do u k, Q => ∀ r, (k r).all (fun evs a => Q (Event.Do u r :: evs) a)
  | .chromedpRun u k, Q => ∀ b, (k b).all (fun evs a => Q (Event.chromedpRun u b :: evs) a)
  | .OpenFile n k, Q => ∀ b, (k b).all (fun evs a => Q (Event.OpenFile n b :: evs) a)
  | .WriteString n s k, Q => ∀ m, (k m).all (fun evs a => Q (Event.WriteString n s m :: evs) a)
  | .Printf s k, Q => k.all (fun evs a => Q (Event.Printf s :: evs) a)

/-- The file events are those of one call of `appendToFile` on one of the two output files. -/
def OneRecord (evs : List Event) : Prop :=
  ∃ f text ok n, (f = "active_domains.txt" ∨ f = "inactive_domains.txt") ∧
    evs.filter Event.isFile =
      Event.OpenFile f ok :: (if ok = true then [Event.WriteString f text n] else [])

/-- Whether the goroutine has not yet executed its `wg.Done()`. -/
def Goroutine.notDone (g : Goroutine) : Bool :=
  match g.phase with
  | Phase.done => false
  | _ => true

/-- What is known of a goroutine in each phase: however its `checkDomain` call goes on, its
events will be those of a call with exactly one record. -/
def Goroutine.Good (g : Goroutine) : Prop :=
  match g.phase with
  | Phase.blocked => g.log = []
  | Phase.inCheck rest => rest.all (fun evs _ => OneRecord (g.log ++ evs))
  | Phase.released => OneRecord g.log
  | Phase.done => OneRecord g.log

/-- The invariant of the runs of `checkAllDomains` on `n` domains. -/
structure Inv (w : World) (cfg : Config) (domains : List String) (s : State) : Prop where
  sem_eq : s.sem = s.inFlight
  sem_le : s.sem ≤ cfg.maxConcurrentChecks
  wg_eq : s.wg =
    ((s.gs.filter Goroutine.notDone).length : Int) + (if s.added = true then 1 else 0)
  good : ∀ g ∈ s.gs, g.Good
  logs : ∀ f : Event → Nat,
    (s.trace.map f).sum = (s.gs.map (fun g => (g.log.map f).sum)).sum
  doms : s.gs.map Goroutine.domain ++ s.pending = domains
  answered : ∀ f ok, Event.OpenFile f ok ∈ s.trace → ∃ t, w.OpenFile t f = ok
  returned : s.returned = true → s.pending = [] ∧ s.wg = 0

/-- Calls of `os.OpenFile`: one per call of `appendToFile`. -/
def Event.isOpen : Event → Bool
  | .OpenFile _ _ => true
  | _ => false

/-- Writes to a file. -/
def Event.isWrite : Event → Bool
  | .WriteString _ _ _ => true
  | _ => false

/-- Failed calls of `os.OpenFile`. -/
def Event.isFailedOpen : Event → Bool
  | .OpenFile _ ok => !ok
  | _ => false

/-- Calls of `os.OpenFile` on a file other than the two output files. -/
def Event.isForeignOpen : Event → Bool
  | .OpenFile f _ => decide (f ≠ "active_domains.txt" ∧ f ≠ "inactive_domains.txt")
  | _ => false

/-- A configuration with room for a single evaluation. -/
def oneSlotConfig : Config :=
  { successStatusCodes := [200], retryCount := 2, maxConcurrentChecks := 1 }

/-- A world in which no domain resolves and the file system works. -/
def deadWorld : World := constWorld false none false

/-- A world in which every request is answered with status 200 by `example.com`, and pages
render or not according to `render`. -/
def liveWorld (render : Bool) : World :=
  constWorld true
    (some { StatusCode := 200, URLString := "http://example.com/", URLHostname := "example.com" })
    render

/-- A world in which every request is redirected to `www.example.com`. -/
def redirectWorld : World :=
  constWorld true
    (some { StatusCode := 200, URLString := "https://www.example.com/",
            URLHostname := "www.example.com" })
    true

/-- A schedule for two domains: both goroutines are started, then each runs to its end. -/
def twoDomainSchedule : List (Option Nat) :=
  [none, none, none, none, some 0, some 1, some 0, some 0, some 0, some 0, some 0, some 1,
    some 1, some 1, some 1, some 1, none]

/-- The state reached by `twoDomainSchedule` in `deadWorld`. -/
def twoDomainFinal : State :=
  { pending := [], added := false, returned := true, wg := 0, sem := 0,
    gs :=
      [{ domain := "a.invalid", phase := Phase.done,
         log := [Event.LookupHost "a.invalid" false, Event.OpenFile "inactive_domains.txt" true,
           Event.WriteString "inactive_domains.txt" "a.invalid\n" 10] },
       { domain := "b.invalid", phase := Phase.done,
         log := [Event.LookupHost "b.invalid" false, Event.OpenFile "inactive_domains.txt" true,
           Event.WriteString "inactive_domains.txt" "b.invalid\n" 10] }],
    trace :=
      [Event.LookupHost "a.invalid" false, Event.OpenFile "inactive_domains.txt" true,
        Event.WriteString "inactive_domains.txt" "a.invalid\n" 10,
        Event.LookupHost "b.invalid" false, Event.OpenFile "inactive_domains.txt" true,
        Event.WriteString "inactive_domains.txt" "b.invalid\n" 10] }

/-- The state with one slot after both goroutines are started and the first has acquired the
slot. -/
def oneSlotBusy : State :=
  { pending := [], added := false, returned := false, wg := 2, sem := 1,
    gs :=
      [{ domain := "a.invalid", phase := Phase.inCheck (checkDomain oneSlotConfig "a.invalid"),
         log := [] },
       { domain := "b.invalid", phase := Phase.blocked, log := [] }],
    trace := [] }

/-! Part 2: lemmas and theorems. -/

theorem Prog.run_bind {α β : Type} (w : World) (p : Prog α) (f : α → Prog β) (t : List Event) :
    (p.bind f).run w t =
      (((f (p.run w t).1).run w (t ++ (p.run w t).2)).1,
        (p.run w t).2 ++ ((f (p.run w t).1).run w (t ++ (p.run w t).2)).2) := by
  induction p generalizing t with
  | ret a => simp [Prog.bind, Prog.run]
  | LookupHost h k ih => simp [Prog.bind, Prog.run, ih]
  | NewRequest u k ih => simp [Prog.bind, Prog.run, ih]
  | Do u k ih => simp [Prog.bind, Prog.run, ih]
  | chromedpRun u k ih => simp [Prog.bind, Prog.run, ih]
  | OpenFile n k ih => simp [Prog.bind, Prog.run, ih]
  | WriteString n s k ih => simp [Prog.bind, Prog.run, ih]
  | Printf s k ih => simp [Prog.bind, Prog.run, ih]

theorem Prog.bind_eq {α β : Type} (p : Prog α) (f : α → Prog β) : (p >>= f) = p.bind f := rfl

theorem Prog.pure_eq {α : Type} (a : α) : (pure a : Prog α) = Prog.ret a := rfl

theorem appendToFile_run (w : World) (filename text : String) (t : List Event) :
    (appendToFile filename text).run w t =
      ((), Event.OpenFile filename (w.OpenFile t filename) ::
        (if w.OpenFile t filename = true then
          [Event.WriteString filename text
            (w.WriteString (t ++ [Event.OpenFile filename true]) filename text)]
         else [])) := by
  cases h : w.OpenFile t filename <;> simp [appendToFile, Prog.run, h]

theorem recordAccepted_run (w : World) (domain url : String) (r : Response) (t : List Event) :
    (recordAccepted domain url r).run w t =
      ((), Event.chromedpRun r.URLString (w.chromedpRun t r.URLString) ::
        (if w.chromedpRun t r.URLString = true then
          Event.Printf ("Active: " ++ url ++ " (Status Code: " ++ toString r.StatusCode ++ ")"
              ++ redirectInfo domain r ++ "\n") ::
            ((appendToFile "active_domains.txt" (url ++ redirectInfo domain r ++ "\n")).run w
              (t ++ [Event.chromedpRun r.URLString true,
                Event.Printf ("Active: " ++ url ++ " (Status Code: " ++ toString r.StatusCode
                  ++ ")" ++ redirectInfo domain r ++ "\n")])).2
         else
          ((appendToFile "inactive_domains.txt" (domain ++ "\n")).run w
              (t ++ [Event.chromedpRun r.URLString false])).2)) := by
  cases h : w.chromedpRun t r.URLString <;>
    simp [recordAccepted, browserCheck, Prog.bind_eq, Prog.pure_eq, Prog.bind, Prog.run, h]

/-- Every event of `tryRequest` is a request for its own URL. -/
theorem tryRequestLoop_events (w : World) (url : String) (n : Nat) (t : List Event) :
    ∀ e ∈ ((tryRequestLoop url n).run w t).2, ∃ x, e = Event.Do url x := by
  induction n generalizing t with
  | zero => simp [tryRequestLoop, Prog.run]
  | succ n ih =>
    cases hq : w.NewRequest url
    · simpa [tryRequestLoop, Prog.run, hq] using ih t
    · cases hd : w.Do t url with
      | none =>
        intro e he
        simp only [tryRequestLoop, Prog.run, hq, hd, Bool.not_true, Bool.false_eq_true,
          if_false, List.mem_cons] at he
        rcases he with he | he
        · exact ⟨none, he⟩
        · exact ih _ e he
      | some resp => simp [tryRequestLoop, Prog.run, hq, hd]

theorem afterFailures_succ (url : String) (t : List Event) (k : Nat) :
    afterFailures url (t ++ [Event.Do url none]) k = afterFailures url t (k + 1) := by
  simp [afterFailures, List.replicate_succ]

/-- The retry loop when a request can be built: either some attempt `k < n` is the first to
receive a response, which is returned at once, or all `n` attempts fail. -/
theorem tryRequestLoop_cases (w : World) (url : String) (hq : w.NewRequest url = true)
    (n : Nat) (t : List Event) :
    (∃ k resp, k < n ∧ (∀ j < k, w.Do (afterFailures url t j) url = none) ∧
        w.Do (afterFailures url t k) url = some resp ∧
        (tryRequestLoop url n).run w t =
          (some resp, List.replicate k (Event.Do url none) ++ [Event.Do url (some resp)])) ∨
      ((∀ j < n, w.Do (afterFailures url t j) url = none) ∧
        (tryRequestLoop url n).run w t = (none, List.replicate n (Event.Do url none))) := by
  induction n generalizing t with
  | zero => right; simp [tryRequestLoop, Prog.run]
  | succ n ih =>
    cases hd : w.Do t url with
    | some resp =>
      left
      refine ⟨0, resp, Nat.succ_pos n, by simp, by simpa [afterFailures] using hd, ?_⟩
      simp [tryRequestLoop, Prog.run, hq, hd]
    | none =>
      have hrun : (tryRequestLoop url (n + 1)).run w t =
          (((tryRequestLoop url n).run w (t ++ [Event.Do url none])).1,
            Event.Do url none :: ((tryRequestLoop url n).run w (t ++ [Event.Do url none])).2) := by
        simp [tryRequestLoop, Prog.run, hq, hd]
      have h0 : w.Do (afterFailures url t 0) url = none := by simpa [afterFailures] using hd
      rcases ih (t ++ [Event.Do url none]) with ⟨k, resp, hk, hfail, hresp, hr⟩ | ⟨hfail, hr⟩
      · left
        refine ⟨k + 1, resp, Nat.succ_lt_succ hk, ?_, ?_, ?_⟩
        · intro j hj
          cases j with
          | zero => exact h0
          | succ j =>
            rw [← afterFailures_succ]
            exact hfail j (Nat.lt_of_succ_lt_succ hj)
        · rw [← afterFailures_succ]; exact hresp
        · rw [hrun, hr]; simp [List.replicate_succ]
      · right
        refine ⟨?_, ?_⟩
        · intro j hj
          cases j with
          | zero => exact h0
          | succ j =>
            rw [← afterFailures_succ]
            exact hfail j (Nat.lt_of_succ_lt_succ hj)
        · rw [hrun, hr]; simp [List.replicate_succ]

/-- When no request can be built from `url` every iteration is skipped. -/
theorem tryRequestLoop_invalid (w : World) (url : String) (hq : w.NewRequest url = false)
    (n : Nat) (t : List Event) : (tryRequestLoop url n).run w t = (none, []) := by
  induction n with
  | zero => simp [tryRequestLoop, Prog.run]
  | succ n ih => simpa [tryRequestLoop, Prog.run, hq] using ih

theorem checkProtocols_nil (w : World) (cfg : Config) (domain : String) (t : List Event) :
    (checkProtocols cfg domain []).run w t = (false, []) := rfl

theorem checkProtocols_cons (w : World) (cfg : Config) (domain protocol : String)
    (rest : List String) (t : List Event) :
    (checkProtocols cfg domain (protocol :: rest)).run w t =
      if accepted cfg ((tryRequest cfg (protocol ++ domain)).run w t).1 = true then
        match ((tryRequest cfg (protocol ++ domain)).run w t).1 with
        | some r =>
          (true, ((tryRequest cfg (protocol ++ domain)).run w t).2 ++
            ((recordAccepted domain (protocol ++ domain) r).run w
              (t ++ ((tryRequest cfg (protocol ++ domain)).run w t).2)).2)
        | none => (false, [])
      else
        (((checkProtocols cfg domain rest).run w
            (t ++ ((tryRequest cfg (protocol ++ domain)).run w t).2)).1,
          ((tryRequest cfg (protocol ++ domain)).run w t).2 ++
            ((checkProtocols cfg domain rest).run w
              (t ++ ((tryRequest cfg (protocol ++ domain)).run w t).2)).2) := by
  rw [checkProtocols, Prog.bind_eq, Prog.run_bind]
  cases hr : ((tryRequest cfg (protocol ++ domain)).run w t).1 with
  | none => simp [accepted]
  | some r =>
    cases hc : contains cfg.successStatusCodes r.StatusCode
    · simp [accepted, hc]
    · simp [accepted, hc, Prog.bind_eq, Prog.pure_eq, Prog.run_bind, Prog.run]

/-- The run of `checkDomain` on an unresolvable domain. -/
theorem checkDomain_run_unresolvable (w : World) (cfg : Config) (domain : String)
    (t : List Event) (h : w.LookupHost t domain = false) :
    ((checkDomain cfg domain).run w t).2 =
      Event.LookupHost domain false ::
        ((appendToFile "inactive_domains.txt" (domain ++ "\n")).run w
          (t ++ [Event.LookupHost domain false])).2 := by
  simp [checkDomain, isDomainResolvable, Prog.bind_eq, Prog.bind, Prog.run, h]

/-- The two-protocol loop, by the outcome of the probes. -/
theorem checkProtocols_run (w : World) (cfg : Config) (domain : String) (t : List Event) :
    (checkProtocols cfg domain ["http://", "https://"]).run w t =
      match firstAccepted w cfg domain t with
      | some (scheme, r, evs) =>
          (true, evs ++ ((recordAccepted domain (scheme ++ domain) r).run w (t ++ evs)).2)
      | none => (false, bothProbes w cfg domain t) := by
  rw [checkProtocols_cons]
  cases h1 : accepted cfg ((tryRequest cfg ("http://" ++ domain)).run w t).1
  · rw [checkProtocols_cons, checkProtocols_nil]
    cases h2 : accepted cfg ((tryRequest cfg ("https://" ++ domain)).run w
        (t ++ ((tryRequest cfg ("http://" ++ domain)).run w t).2)).1
    · simp [firstAccepted, bothProbes, h1, h2]
    · cases hr : ((tryRequest cfg ("https://" ++ domain)).run w
          (t ++ ((tryRequest cfg ("http://" ++ domain)).run w t).2)).1 with
      | none => simp [hr, accepted] at h2
      | some r =>
        have h2r := h2
        rw [hr] at h2r
        simp [firstAccepted, h1, hr, h2r]
  · cases hr : ((tryRequest cfg ("http://" ++ domain)).run w t).1 with
    | none => simp [hr, accepted] at h1
    | some r =>
      have h1r := h1
      rw [hr] at h1r
      simp [firstAccepted, hr, h1r]

theorem checkDomain_run_loop (w : World) (cfg : Config) (domain : String)
    (t : List Event) (h : w.LookupHost t domain = true) :
    ((checkDomain cfg domain).run w t).2 =
      Event.LookupHost domain true ::
        (((checkProtocols cfg domain ["http://", "https://"]).run w
            (t ++ [Event.LookupHost domain true])).2 ++
          (if ((checkProtocols cfg domain ["http://", "https://"]).run w
              (t ++ [Event.LookupHost domain true])).1 = true then []
           else
            ((appendToFile "inactive_domains.txt" (domain ++ "\n")).run w
              (t ++ [Event.LookupHost domain true] ++
                ((checkProtocols cfg domain ["http://", "https://"]).run w
                  (t ++ [Event.LookupHost domain true])).2)).2)) := by
  cases hq : ((checkProtocols cfg domain ["http://", "https://"]).run w
      (t ++ [Event.LookupHost domain true])).1 <;>
    simp [checkDomain, isDomainResolvable, Prog.bind_eq, Prog.pure_eq, Prog.bind, Prog.run,
      Prog.run_bind, h, hq]

/-- The run of `checkDomain` on a resolvable domain, by the outcome of the probes. -/
theorem checkDomain_run_resolvable (w : World) (cfg : Config) (domain : String)
    (t : List Event) (h : w.LookupHost t domain = true) :
    ((checkDomain cfg domain).run w t).2 =
      Event.LookupHost domain true ::
        (match firstAccepted w cfg domain (t ++ [Event.LookupHost domain true]) with
         | some (scheme, r, evs) =>
            evs ++ ((recordAccepted domain (scheme ++ domain) r).run w
              (t ++ [Event.LookupHost domain true] ++ evs)).2
         | none =>
            bothProbes w cfg domain (t ++ [Event.LookupHost domain true]) ++
              ((appendToFile "inactive_domains.txt" (domain ++ "\n")).run w
                (t ++ [Event.LookupHost domain true] ++
                  bothProbes w cfg domain (t ++ [Event.LookupHost domain true]))).2) := by
  rw [checkDomain_run_loop w cfg domain t h, checkProtocols_run]
  cases hf : firstAccepted w cfg domain (t ++ [Event.LookupHost domain true]) with
  | none => simp
  | some x => obtain ⟨scheme, r, evs⟩ := x; simp

theorem firstAccepted_eq_some_iff (w : World) (cfg : Config) (domain : String) (t : List Event)
    (scheme : String) (r : Response) (evs : List Event) :
    firstAccepted w cfg domain t = some (scheme, r, evs) ↔
      (((tryRequest cfg ("http://" ++ domain)).run w t).1 = some r ∧
          contains cfg.successStatusCodes r.StatusCode = true ∧ scheme = "http://" ∧
          evs = ((tryRequest cfg ("http://" ++ domain)).run w t).2) ∨
        (accepted cfg ((tryRequest cfg ("http://" ++ domain)).run w t).1 = false ∧
          ((tryRequest cfg ("https://" ++ domain)).run w
            (t ++ ((tryRequest cfg ("http://" ++ domain)).run w t).2)).1 = some r ∧
          contains cfg.successStatusCodes r.StatusCode = true ∧ scheme = "https://" ∧
          evs = ((tryRequest cfg ("http://" ++ domain)).run w t).2 ++
            ((tryRequest cfg ("https://" ++ domain)).run w
              (t ++ ((tryRequest cfg ("http://" ++ domain)).run w t).2)).2) := by
  dsimp only [firstAccepted]
  generalize (tryRequest cfg ("http://" ++ domain)).run w t = p1
  generalize (tryRequest cfg ("https://" ++ domain)).run w (t ++ p1.2) = p2
  obtain ⟨r1, e1⟩ := p1
  obtain ⟨r2, e2⟩ := p2
  cases r1 with
  | none =>
    cases r2 with
    | none => simp [accepted]
    | some b =>
      cases hb : contains cfg.successStatusCodes b.StatusCode
      · simp only [accepted, hb]
        constructor
        · intro h; simp at h
        · rintro (⟨h, -⟩ | ⟨-, h, h', -⟩)
          · simp at h
          · simp only [Option.some.injEq] at h; subst h; simp [hb] at h'
      · simp only [accepted, hb]
        constructor
        · intro h
          simp at h
          obtain ⟨rfl, rfl, rfl⟩ := h
          right; simp [hb]
        · rintro (⟨h, -⟩ | ⟨-, h, -, rfl, rfl⟩)
          · simp at h
          · simp only [Option.some.injEq] at h; subst h; simp
  | some a =>
    cases ha : contains cfg.successStatusCodes a.StatusCode
    · cases r2 with
      | none =>
        simp only [accepted, ha]
        constructor
        · intro h; simp at h
        · rintro (⟨h, h', -⟩ | ⟨-, h, -⟩)
          · simp only [Option.some.injEq] at h; subst h; simp [ha] at h'
          · simp at h
      | some b =>
        cases hb : contains cfg.successStatusCodes b.StatusCode
        · simp only [accepted, ha, hb]
          constructor
          · intro h; simp at h
          · rintro (⟨h, h', -⟩ | ⟨-, h, h', -⟩)
            · simp only [Option.some.injEq] at h; subst h; simp [ha] at h'
            · simp only [Option.some.injEq] at h; subst h; simp [hb] at h'
        · simp only [accepted, ha, hb]
          constructor
          · intro h
            simp at h
            obtain ⟨rfl, rfl, rfl⟩ := h
            right; simp [hb]
          · rintro (⟨h, h', -⟩ | ⟨-, h, -, rfl, rfl⟩)
            · simp only [Option.some.injEq] at h; subst h; simp [ha] at h'
            · simp only [Option.some.injEq] at h; subst h; simp
    · simp only [accepted, ha]
      constructor
      · intro h
        simp at h
        obtain ⟨rfl, rfl, rfl⟩ := h
        left; simp [ha]
      · rintro (⟨h, -, rfl, rfl⟩ | ⟨h, -⟩)
        · simp only [Option.some.injEq] at h; subst h; simp
        · simp at h

theorem tryRequest_events (w : World) (cfg : Config) (url : String) (t : List Event) :
    ∀ e ∈ ((tryRequest cfg url).run w t).2, ∃ x, e = Event.Do url x :=
  tryRequestLoop_events w url cfg.retryCount t

theorem tryRequest_isDo (w : World) (cfg : Config) (url : String) (t : List Event) :
    ∀ e ∈ ((tryRequest cfg url).run w t).2, e.isDo = true := by
  intro e he
  obtain ⟨x, rfl⟩ := tryRequest_events w cfg url t e he
  rfl

theorem bothProbes_isDo (w : World) (cfg : Config) (domain : String) (t : List Event) :
    ∀ e ∈ bothProbes w cfg domain t, e.isDo = true := by
  intro e he
  simp only [bothProbes, List.mem_append] at he
  rcases he with he | he
  · exact tryRequest_isDo _ _ _ _ e he
  · exact tryRequest_isDo _ _ _ _ e he

theorem firstAccepted_isDo (w : World) (cfg : Config) (domain : String) (t : List Event)
    (scheme : String) (r : Response) (evs : List Event)
    (h : firstAccepted w cfg domain t = some (scheme, r, evs)) : ∀ e ∈ evs, e.isDo = true := by
  rcases (firstAccepted_eq_some_iff w cfg domain t scheme r evs).1 h with
    ⟨-, -, -, rfl⟩ | ⟨-, -, -, -, rfl⟩
  · exact tryRequest_isDo _ _ _ _
  · exact bothProbes_isDo w cfg domain t

theorem filter_isFile_of_isDo (l : List Event) (h : ∀ e ∈ l, e.isDo = true) :
    l.filter Event.isFile = [] := by
  rw [List.filter_eq_nil_iff]
  intro e he
  have := h e he
  cases e <;> simp_all [Event.isDo, Event.isFile]

theorem appendsTo_append (f : String) (a b : List Event) :
    appendsTo f (a ++ b) = (appendsTo f a || appendsTo f b) := by
  simp [appendsTo, List.any_append]

theorem appendsTo_of_isDo (f : String) (l : List Event) (h : ∀ e ∈ l, e.isDo = true) :
    appendsTo f l = false := by
  simp only [appendsTo, List.any_eq_false]
  intro e he
  have := h e he
  cases e <;> simp_all [Event.isDo]

theorem appendToFile_fileEvents (w : World) (f text : String) (t : List Event) :
    ((appendToFile f text).run w t).2.filter Event.isFile = ((appendToFile f text).run w t).2 := by
  rw [appendToFile_run]
  cases w.OpenFile t f <;> simp [Event.isFile]

/-- Resolvable, no probe accepted: both probes, then one record in the inactive file. -/
theorem checkDomain_run_rejected (w : World) (cfg : Config) (domain : String) (t : List Event)
    (h : w.LookupHost t domain = true)
    (hf : firstAccepted w cfg domain (t ++ [Event.LookupHost domain true]) = none) :
    ((checkDomain cfg domain).run w t).2 =
      Event.LookupHost domain true ::
        (bothProbes w cfg domain (t ++ [Event.LookupHost domain true]) ++
          ((appendToFile "inactive_domains.txt" (domain ++ "\n")).run w
            (t ++ [Event.LookupHost domain true] ++
              bothProbes w cfg domain (t ++ [Event.LookupHost domain true]))).2) := by
  rw [checkDomain_run_resolvable w cfg domain t h, hf]

/-- Resolvable, a probe accepted, render check failed: one record in the inactive file. -/
theorem checkDomain_run_unrendered (w : World) (cfg : Config) (domain : String)
    (t : List Event) (h : w.LookupHost t domain = true) (scheme : String) (r : Response)
    (pre : List Event)
    (hf : firstAccepted w cfg domain (t ++ [Event.LookupHost domain true]) =
      some (scheme, r, pre))
    (hb : w.chromedpRun (t ++ [Event.LookupHost domain true] ++ pre) r.URLString = false) :
    ((checkDomain cfg domain).run w t).2 =
      Event.LookupHost domain true ::
        (pre ++ Event.chromedpRun r.URLString false ::
          ((appendToFile "inactive_domains.txt" (domain ++ "\n")).run w
            (t ++ [Event.LookupHost domain true] ++ pre ++
              [Event.chromedpRun r.URLString false])).2) := by
  rw [checkDomain_run_resolvable w cfg domain t h, hf]
  dsimp only
  rw [recordAccepted_run, hb]
  simp

/-- Resolvable, a probe accepted, render check passed: console line, then one record in the
active file. -/
theorem checkDomain_run_active (w : World) (cfg : Config) (domain : String)
    (t : List Event) (h : w.LookupHost t domain = true) (scheme : String) (r : Response)
    (pre : List Event)
    (hf : firstAccepted w cfg domain (t ++ [Event.LookupHost domain true]) =
      some (scheme, r, pre))
    (hb : w.chromedpRun (t ++ [Event.LookupHost domain true] ++ pre) r.URLString = true) :
    ((checkDomain cfg domain).run w t).2 =
      Event.LookupHost domain true ::
        (pre ++ Event.chromedpRun r.URLString true :: Event.Printf (activeLine scheme domain r) ::
          ((appendToFile "active_domains.txt"
              (scheme ++ domain ++ redirectInfo domain r ++ "\n")).run w
            (t ++ [Event.LookupHost domain true] ++ pre ++
              [Event.chromedpRun r.URLString true, Event.Printf (activeLine scheme domain r)])).2)
      := by
  rw [checkDomain_run_resolvable w cfg domain t h, hf]
  dsimp only
  rw [recordAccepted_run, hb]
  simp [activeLine]

/-- The file events of one run of `checkDomain` are those of a single call of `appendToFile`,
on one of the two output files, with a text that ends in a newline. -/
theorem checkDomain_fileEvents (w : World) (cfg : Config) (domain : String) (t : List Event) :
    ∃ f body pre,
      (f = "active_domains.txt" ∨ f = "inactive_domains.txt") ∧
      (((checkDomain cfg domain).run w t).2.filter Event.isFile =
        Event.OpenFile f (w.OpenFile (t ++ pre) f) ::
          (if w.OpenFile (t ++ pre) f = true then
            [Event.WriteString f (body ++ "\n")
              (w.WriteString (t ++ pre ++ [Event.OpenFile f true]) f (body ++ "\n"))]
           else [])) := by
  cases hres : w.LookupHost t domain
  · refine ⟨"inactive_domains.txt", domain, [Event.LookupHost domain false], Or.inr rfl, ?_⟩
    rw [checkDomain_run_unresolvable w cfg domain t hres]
    simp only [List.filter_cons, Event.isFile, appendToFile_fileEvents]
    simp [appendToFile_run]
  · cases hf : firstAccepted w cfg domain (t ++ [Event.LookupHost domain true]) with
    | none =>
      refine ⟨"inactive_domains.txt", domain,
        Event.LookupHost domain true ::
          bothProbes w cfg domain (t ++ [Event.LookupHost domain true]), Or.inr rfl, ?_⟩
      have hd := filter_isFile_of_isDo _
        (bothProbes_isDo w cfg domain (t ++ [Event.LookupHost domain true]))
      rw [checkDomain_run_rejected w cfg domain t hres hf]
      simp only [List.filter_cons, List.filter_append, hd, Event.isFile,
        appendToFile_fileEvents]
      simp [appendToFile_run]
    | some x =>
      obtain ⟨scheme, r, evs⟩ := x
      have hd := filter_isFile_of_isDo _ (firstAccepted_isDo w cfg domain _ scheme r evs hf)
      cases hb : w.chromedpRun (t ++ [Event.LookupHost domain true] ++ evs) r.URLString
      · refine ⟨"inactive_domains.txt", domain,
          Event.LookupHost domain true :: evs ++ [Event.chromedpRun r.URLString false],
          Or.inr rfl, ?_⟩
        rw [checkDomain_run_unrendered w cfg domain t hres scheme r evs hf hb]
        simp only [List.filter_cons, List.filter_append, hd, Event.isFile,
          appendToFile_fileEvents]
        simp [appendToFile_run]
      · refine ⟨"active_domains.txt", scheme ++ domain ++ redirectInfo domain r,
          Event.LookupHost domain true :: evs ++ [Event.chromedpRun r.URLString true,
            Event.Printf (activeLine scheme domain r)],
          Or.inl rfl, ?_⟩
        rw [checkDomain_run_active w cfg domain t hres scheme r evs hf hb]
        simp only [List.filter_cons, List.filter_append, hd, Event.isFile,
          appendToFile_fileEvents]
        simp [appendToFile_run]

theorem appendsTo_appendToFile (w : World) (f g text : String) (t : List Event) :
    appendsTo g ((appendToFile f text).run w t).2 = decide (f = g) := by
  rw [appendToFile_run]
  cases w.OpenFile t f <;> simp [appendsTo]

theorem http_ne_https (domain : String) : "http://" ++ domain ≠ "https://" ++ domain := by
  intro h
  have h2 := congrArg String.data h
  simp only [String.data_append] at h2
  have h3 := congrArg (fun l => l.get? 4) h2
  simp at h3

/-- Which file `checkDomain` appends to. -/
theorem checkDomain_appendsTo (w : World) (cfg : Config) (domain : String) (t : List Event) :
    (appendsTo "active_domains.txt" ((checkDomain cfg domain).run w t).2 = true ↔
      w.LookupHost t domain = true ∧
        ∃ scheme r pre,
          firstAccepted w cfg domain (t ++ [Event.LookupHost domain true]) =
            some (scheme, r, pre) ∧
          w.chromedpRun (t ++ [Event.LookupHost domain true] ++ pre) r.URLString = true) ∧
    appendsTo "inactive_domains.txt" ((checkDomain cfg domain).run w t).2 =
      !appendsTo "active_domains.txt" ((checkDomain cfg domain).run w t).2 := by
  cases hres : w.LookupHost t domain
  · rw [checkDomain_run_unresolvable w cfg domain t hres]
    simp [appendsTo, appendToFile_run]
  · cases hf : firstAccepted w cfg domain (t ++ [Event.LookupHost domain true]) with
    | none =>
      have hd := bothProbes_isDo w cfg domain (t ++ [Event.LookupHost domain true])
      rw [checkDomain_run_rejected w cfg domain t hres hf]
      have e1 : ∀ f l, appendsTo f (Event.LookupHost domain true :: l) = appendsTo f l := by
        intro f l; simp [appendsTo]
      simp [e1, appendsTo_append, appendsTo_of_isDo _ _ hd, appendsTo_appendToFile]
    | some x =>
      obtain ⟨scheme, r, pre⟩ := x
      have hd := firstAccepted_isDo w cfg domain _ scheme r pre hf
      have e1 : ∀ f l, appendsTo f (Event.LookupHost domain true :: l) = appendsTo f l := by
        intro f l; simp [appendsTo]
      have e2 : ∀ f b l, appendsTo f (Event.chromedpRun r.URLString b :: l) = appendsTo f l := by
        intro f b l; simp [appendsTo]
      have e3 : ∀ f x l, appendsTo f (Event.Printf x :: l) = appendsTo f l := by
        intro f x l; simp [appendsTo]
      cases hb : w.chromedpRun (t ++ [Event.LookupHost domain true] ++ pre) r.URLString
      · rw [checkDomain_run_unrendered w cfg domain t hres scheme r pre hf hb]
        have hb2 := hb
        simp only [List.append_assoc, List.singleton_append] at hb2
        simp [e1, e2, appendsTo_append, appendsTo_of_isDo _ _ hd, appendsTo_appendToFile, hb2]
      · rw [checkDomain_run_active w cfg domain t hres scheme r pre hf hb]
        have hb2 := hb
        simp only [List.append_assoc, List.singleton_append] at hb2
        simp only [e1, e2, e3, appendsTo_append, appendsTo_of_isDo _ _ hd,
          appendsTo_appendToFile]
        refine ⟨⟨fun _ => ⟨trivial, scheme, r, pre, rfl, hb⟩, fun _ => by simp⟩, by simp⟩

theorem appendToFile_not_isDo (w : World) (f text : String) (t : List Event) :
    ∀ e ∈ ((appendToFile f text).run w t).2,
      e.isDo = false ∧ e.isPrintf = false ∧ e.isBrowser = false := by
  intro e he
  rw [appendToFile_run] at he
  cases hop : w.OpenFile t f
  · simp [hop] at he
    subst he
    simp [Event.isDo, Event.isPrintf, Event.isBrowser]
  · simp [hop] at he
    rcases he with rfl | rfl <;> simp [Event.isDo, Event.isPrintf, Event.isBrowser]

theorem firstAccepted_eq_none (w : World) (cfg : Config) (domain : String) (t : List Event)
    (h : firstAccepted w cfg domain t = none) :
    accepted cfg ((tryRequest cfg ("http://" ++ domain)).run w t).1 = false := by
  dsimp only [firstAccepted] at h
  cases h1 : ((tryRequest cfg ("http://" ++ domain)).run w t).1 with
  | none => rfl
  | some r =>
    cases hc : accepted cfg (some r)
    · rfl
    · rw [h1] at h
      simp [hc] at h

theorem firstAccepted_scheme (w : World) (cfg : Config) (domain : String) (t : List Event)
    (scheme : String) (r : Response) (pre : List Event)
    (h : firstAccepted w cfg domain t = some (scheme, r, pre)) :
    (scheme = "http://" ∨ scheme = "https://") ∧
      contains cfg.successStatusCodes r.StatusCode = true := by
  rcases (firstAccepted_eq_some_iff w cfg domain t scheme r pre).1 h with
    ⟨-, hc, hs, -⟩ | ⟨-, -, hc, hs, -⟩
  · exact ⟨Or.inl hs, hc⟩
  · exact ⟨Or.inr hs, hc⟩

theorem recordAccepted_not_isDo (w : World) (domain url : String) (r : Response)
    (t : List Event) : ∀ e ∈ ((recordAccepted domain url r).run w t).2, e.isDo = false := by
  intro e he
  rw [recordAccepted_run] at he
  cases hb : w.chromedpRun t r.URLString
  · simp only [hb, Bool.false_eq_true, if_false, List.mem_cons] at he
    rcases he with rfl | he
    · rfl
    · exact (appendToFile_not_isDo w _ _ _ e he).1
  · simp only [hb, if_true, List.mem_cons] at he
    rcases he with rfl | rfl | he
    · rfl
    · rfl
    · exact (appendToFile_not_isDo w _ _ _ e he).1

theorem writesTo_filter (f : String) (evs : List Event) :
    writesTo f (evs.filter Event.isFile) = writesTo f evs := by
  simp only [writesTo, List.any_filter]
  congr 1
  funext e
  cases e <;> simp [Event.isFile]

theorem appendsTo_filter (f : String) (evs : List Event) :
    appendsTo f (evs.filter Event.isFile) = appendsTo f evs := by
  simp only [appendsTo, List.any_filter]
  congr 1
  funext e
  cases e <;> simp [Event.isFile]

/-- The file events of `checkDomain`, by the file it records in: those of one call of
`appendToFile` on `active_domains.txt` with the line of the first accepted response, or those
of one call on `inactive_domains.txt` with the domain and a newline. -/
theorem checkDomain_fileEvents_cases (w : World) (cfg : Config) (domain : String)
    (t : List Event) :
    (appendsTo "active_domains.txt" ((checkDomain cfg domain).run w t).2 = true ∧
      ∃ scheme r pre,
        firstAccepted w cfg domain (t ++ [Event.LookupHost domain true]) =
          some (scheme, r, pre) ∧
        ((checkDomain cfg domain).run w t).2.filter Event.isFile =
          ((appendToFile "active_domains.txt"
              (scheme ++ domain ++ redirectInfo domain r ++ "\n")).run w
            (t ++ [Event.LookupHost domain true] ++ pre ++
              [Event.chromedpRun r.URLString true,
                Event.Printf (activeLine scheme domain r)])).2) ∨
    (appendsTo "active_domains.txt" ((checkDomain cfg domain).run w t).2 = false ∧
      ∃ pre,
        ((checkDomain cfg domain).run w t).2.filter Event.isFile =
          ((appendToFile "inactive_domains.txt" (domain ++ "\n")).run w (t ++ pre)).2) := by
  have hact := (checkDomain_appendsTo w cfg domain t).1
  cases hres : w.LookupHost t domain
  · right
    refine ⟨?_, [Event.LookupHost domain false], ?_⟩
    · cases hq : appendsTo "active_domains.txt" ((checkDomain cfg domain).run w t).2
      · rfl
      · have := (hact.1 hq).1
        rw [hres] at this
        cases this
    · rw [checkDomain_run_unresolvable w cfg domain t hres]
      simp only [List.filter_cons, Event.isFile, appendToFile_fileEvents]
      simp
  · cases hf : firstAccepted w cfg domain (t ++ [Event.LookupHost domain true]) with
    | none =>
      right
      refine ⟨?_, Event.LookupHost domain true ::
        bothProbes w cfg domain (t ++ [Event.LookupHost domain true]), ?_⟩
      · cases hq : appendsTo "active_domains.txt" ((checkDomain cfg domain).run w t).2
        · rfl
        · obtain ⟨-, s2, r2, pre2, hf2, -⟩ := hact.1 hq
          rw [hf] at hf2
          cases hf2
      · have hd := filter_isFile_of_isDo _
          (bothProbes_isDo w cfg domain (t ++ [Event.LookupHost domain true]))
        rw [checkDomain_run_rejected w cfg domain t hres hf]
        simp only [List.filter_cons, List.filter_append, hd, Event.isFile,
          appendToFile_fileEvents]
        simp
    | some x =>
      obtain ⟨scheme, r, pre⟩ := x
      have hd := filter_isFile_of_isDo _ (firstAccepted_isDo w cfg domain _ scheme r pre hf)
      cases hb : w.chromedpRun (t ++ [Event.LookupHost domain true] ++ pre) r.URLString
      · right
        refine ⟨?_, Event.LookupHost domain true :: pre ++
          [Event.chromedpRun r.URLString false], ?_⟩
        · cases hq : appendsTo "active_domains.txt" ((checkDomain cfg domain).run w t).2
          · rfl
          · obtain ⟨-, s2, r2, pre2, hf2, hb2⟩ := hact.1 hq
            rw [hf] at hf2
            simp only [Option.some.injEq, Prod.mk.injEq] at hf2
            obtain ⟨-, rfl, rfl⟩ := hf2
            rw [hb] at hb2
            cases hb2
        · rw [checkDomain_run_unrendered w cfg domain t hres scheme r pre hf hb]
          simp only [List.filter_cons, List.filter_append, hd, Event.isFile,
            appendToFile_fileEvents]
          simp
      · left
        refine ⟨hact.2 ⟨hres, scheme, r, pre, hf, hb⟩, scheme, r, pre, rfl, ?_⟩
        rw [checkDomain_run_active w cfg domain t hres scheme r pre hf hb]
        simp only [List.filter_cons, List.filter_append, hd, Event.isFile,
          appendToFile_fileEvents]
        simp

/-- C2. `checkDomain` records the domain in `active_domains.txt` if and only if the resolver
reports it resolvable, one of the probes of `http://D` and `https://D` (in that order, the
second issued only when the first is not accepted) returns a response with an accepted status,
and the render check succeeds on the final URL of the first accepted response; in every other
case it records the domain in `inactive_domains.txt`.  Recording in a file is the open of the
file followed, when the open succeeds, by the write of the line: the line of the first accepted
response for `active_domains.txt`, the domain and a newline for `inactive_domains.txt`; with a
working file system the file recorded in is the file written to. -/
theorem checkDomain_active_iff (w : World) (cfg : Config) (domain : String) (t : List Event) :
    (appendsTo "active_domains.txt" ((checkDomain cfg domain).run w t).2 = true ↔
      w.LookupHost t domain = true ∧
        ((∃ r, ((tryRequest cfg ("http://" ++ domain)).run w
              (t ++ [Event.LookupHost domain true])).1 = some r ∧
            contains cfg.successStatusCodes r.StatusCode = true ∧
            w.chromedpRun (t ++ [Event.LookupHost domain true] ++
              ((tryRequest cfg ("http://" ++ domain)).run w
                (t ++ [Event.LookupHost domain true])).2) r.URLString = true) ∨
         (accepted cfg ((tryRequest cfg ("http://" ++ domain)).run w
              (t ++ [Event.LookupHost domain true])).1 = false ∧
          ∃ r, ((tryRequest cfg ("https://" ++ domain)).run w
              (t ++ [Event.LookupHost domain true] ++
                ((tryRequest cfg ("http://" ++ domain)).run w
                  (t ++ [Event.LookupHost domain true])).2)).1 = some r ∧
            contains cfg.successStatusCodes r.StatusCode = true ∧
            w.chromedpRun (t ++ [Event.LookupHost domain true] ++
              (((tryRequest cfg ("http://" ++ domain)).run w
                (t ++ [Event.LookupHost domain true])).2 ++
              ((tryRequest cfg ("https://" ++ domain)).run w
                (t ++ [Event.LookupHost domain true] ++
                  ((tryRequest cfg ("http://" ++ domain)).run w
                    (t ++ [Event.LookupHost domain true])).2)).2)) r.URLString = true))) ∧
    (appendsTo "inactive_domains.txt" ((checkDomain cfg domain).run w t).2 = true ↔
      ¬ appendsTo "active_domains.txt" ((checkDomain cfg domain).run w t).2 = true) ∧
    (appendsTo "active_domains.txt" ((checkDomain cfg domain).run w t).2 = true →
      ∃ scheme r pre,
        firstAccepted w cfg domain (t ++ [Event.LookupHost domain true]) =
          some (scheme, r, pre) ∧
        ((checkDomain cfg domain).run w t).2.filter Event.isFile =
          Event.OpenFile "active_domains.txt"
              (w.OpenFile
                (t ++ [Event.LookupHost domain true] ++ pre ++
                  [Event.chromedpRun r.URLString true,
                    Event.Printf (activeLine scheme domain r)])
                "active_domains.txt") ::
            (if w.OpenFile
                (t ++ [Event.LookupHost domain true] ++ pre ++
                  [Event.chromedpRun r.URLString true,
                    Event.Printf (activeLine scheme domain r)])
                "active_domains.txt" = true then
              [Event.WriteString "active_domains.txt"
                (scheme ++ domain ++ redirectInfo domain r ++ "\n")
                (w.WriteString
                  (t ++ [Event.LookupHost domain true] ++ pre ++
                    [Event.chromedpRun r.URLString true,
                      Event.Printf (activeLine scheme domain r)] ++
                    [Event.OpenFile "active_domains.txt" true])
                  "active_domains.txt" (scheme ++ domain ++ redirectInfo domain r ++ "\n"))]
             else [])) ∧
    (appendsTo "inactive_domains.txt" ((checkDomain cfg domain).run w t).2 = true →
      ∃ pre,
        ((checkDomain cfg domain).run w t).2.filter Event.isFile =
          Event.OpenFile "inactive_domains.txt" (w.OpenFile (t ++ pre) "inactive_domains.txt") ::
            (if w.OpenFile (t ++ pre) "inactive_domains.txt" = true then
              [Event.WriteString "inactive_domains.txt" (domain ++ "\n")
                (w.WriteString (t ++ pre ++ [Event.OpenFile "inactive_domains.txt" true])
                  "inactive_domains.txt" (domain ++ "\n"))]
             else [])) ∧
    (w.filesOk →
      writesTo "active_domains.txt" ((checkDomain cfg domain).run w t).2 =
          appendsTo "active_domains.txt" ((checkDomain cfg domain).run w t).2 ∧
        writesTo "inactive_domains.txt" ((checkDomain cfg domain).run w t).2 =
          appendsTo "inactive_domains.txt" ((checkDomain cfg domain).run w t).2) := by
  obtain ⟨hact, hin⟩ := checkDomain_appendsTo w cfg domain t
  have hcases := checkDomain_fileEvents_cases w cfg domain t
  refine ⟨?_, by rw [hin]; simp, ?_, ?_, ?_⟩
  rotate_left
  · intro ha
    rcases hcases with ⟨-, scheme, r, pre, hf, he⟩ | ⟨hno, -⟩
    · rw [appendToFile_run] at he
      exact ⟨scheme, r, pre, hf, he⟩
    · rw [hno] at ha
      cases ha
  · intro hi
    rcases hcases with ⟨hyes, -⟩ | ⟨-, pre, he⟩
    · rw [hin, hyes] at hi
      cases hi
    · rw [appendToFile_run] at he
      exact ⟨pre, he⟩
  · intro hok
    rw [← writesTo_filter "active_domains.txt", ← writesTo_filter "inactive_domains.txt",
      ← appendsTo_filter "active_domains.txt", ← appendsTo_filter "inactive_domains.txt"]
    rcases hcases with ⟨-, scheme, r, pre, -, he⟩ | ⟨-, pre, he⟩
    · rw [he, appendToFile_run]
      simp [(hok _ _).1, writesTo, appendsTo]
    · rw [he, appendToFile_run]
      simp [(hok _ _).1, writesTo, appendsTo]
  rw [hact]
  constructor
  · rintro ⟨hres, scheme, r, pre, hf, hb⟩
    refine ⟨hres, ?_⟩
    rcases (firstAccepted_eq_some_iff w cfg domain _ scheme r pre).1 hf with
      ⟨h1, hc, -, rfl⟩ | ⟨h0, h2, hc, -, rfl⟩
    · exact Or.inl ⟨r, h1, hc, hb⟩
    · exact Or.inr ⟨h0, r, h2, hc, hb⟩
  · rintro ⟨hres, ⟨r, h1, hc, hb⟩ | ⟨h0, r, h2, hc, hb⟩⟩
    · exact ⟨hres, "http://", r, _,
        (firstAccepted_eq_some_iff w cfg domain _ _ r _).2 (Or.inl ⟨h1, hc, rfl, rfl⟩), hb⟩
    · exact ⟨hres, "https://", r, _,
        (firstAccepted_eq_some_iff w cfg domain _ _ r _).2 (Or.inr ⟨h0, h2, hc, rfl, rfl⟩), hb⟩

/-- C3. When the resolver answers `false` for `D`, the run of `checkDomain` consists of the
lookup and one call of `appendToFile` on `inactive_domains.txt` with the text `D` followed by a
newline: no HTTP request and no browser check is issued. -/
theorem checkDomain_unresolvable (w : World) (cfg : Config) (domain : String) (t : List Event)
    (h : w.LookupHost t domain = false) :
    ((checkDomain cfg domain).run w t).2 =
        Event.LookupHost domain false ::
          Event.OpenFile "inactive_domains.txt"
              (w.OpenFile (t ++ [Event.LookupHost domain false]) "inactive_domains.txt") ::
            (if w.OpenFile (t ++ [Event.LookupHost domain false]) "inactive_domains.txt" = true
             then
              [Event.WriteString "inactive_domains.txt" (domain ++ "\n")
                (w.WriteString
                  (t ++ [Event.LookupHost domain false,
                    Event.OpenFile "inactive_domains.txt" true])
                  "inactive_domains.txt" (domain ++ "\n"))]
             else []) ∧
      (∀ e ∈ ((checkDomain cfg domain).run w t).2, e.isDo = false ∧ e.isBrowser = false) ∧
      appendsTo "inactive_domains.txt" ((checkDomain cfg domain).run w t).2 = true ∧
      appendsTo "active_domains.txt" ((checkDomain cfg domain).run w t).2 = false := by
  have hrun := checkDomain_run_unresolvable w cfg domain t h
  rw [appendToFile_run] at hrun
  simp only [List.append_assoc, List.singleton_append] at hrun
  refine ⟨hrun, ?_, ?_, ?_⟩
  · rw [hrun]
    intro e he
    cases hop : w.OpenFile (t ++ [Event.LookupHost domain false]) "inactive_domains.txt"
    · simp [hop] at he
      rcases he with rfl | rfl <;> simp [Event.isDo, Event.isBrowser]
    · simp [hop] at he
      rcases he with rfl | rfl | rfl <;> simp [Event.isDo, Event.isBrowser]
  · rw [hrun]; simp [appendsTo]
  · rw [hrun]
    cases hop : w.OpenFile (t ++ [Event.LookupHost domain false]) "inactive_domains.txt" <;>
      simp [appendsTo]

/-- C5. When the first accepted probe response of a resolvable domain fails the render check on
its final URL, `checkDomain` ends with one call of `appendToFile` on `inactive_domains.txt` with
the domain and a newline: the open of the file followed, when the open succeeds, by the write
of the domain and a newline (so with a working file system that line is written); nothing is
appended to `active_domains.txt` and no console line is printed. -/
theorem checkDomain_render_failure (w : World) (cfg : Config) (domain : String)
    (t : List Event) (scheme : String) (r : Response) (pre : List Event)
    (hres : w.LookupHost t domain = true)
    (hf : firstAccepted w cfg domain (t ++ [Event.LookupHost domain true]) =
      some (scheme, r, pre))
    (hb : w.chromedpRun (t ++ [Event.LookupHost domain true] ++ pre) r.URLString = false) :
    ((checkDomain cfg domain).run w t).2 =
        Event.LookupHost domain true ::
          (pre ++ Event.chromedpRun r.URLString false ::
            ((appendToFile "inactive_domains.txt" (domain ++ "\n")).run w
              (t ++ [Event.LookupHost domain true] ++ pre ++
                [Event.chromedpRun r.URLString false])).2) ∧
      appendsTo "inactive_domains.txt" ((checkDomain cfg domain).run w t).2 = true ∧
      appendsTo "active_domains.txt" ((checkDomain cfg domain).run w t).2 = false ∧
      (∀ e ∈ ((checkDomain cfg domain).run w t).2, e.isPrintf = false) ∧
      (∀ e ∈ ((checkDomain cfg domain).run w t).2, ∀ text n,
        e ≠ Event.WriteString "active_domains.txt" text n) ∧
      ((checkDomain cfg domain).run w t).2 =
        Event.LookupHost domain true ::
          (pre ++ Event.chromedpRun r.URLString false ::
            Event.OpenFile "inactive_domains.txt"
                (w.OpenFile
                  (t ++ [Event.LookupHost domain true] ++ pre ++
                    [Event.chromedpRun r.URLString false]) "inactive_domains.txt") ::
              (if w.OpenFile
                  (t ++ [Event.LookupHost domain true] ++ pre ++
                    [Event.chromedpRun r.URLString false]) "inactive_domains.txt" = true then
                [Event.WriteString "inactive_domains.txt" (domain ++ "\n")
                  (w.WriteString
                    (t ++ [Event.LookupHost domain true] ++ pre ++
                      [Event.chromedpRun r.URLString false] ++
                      [Event.OpenFile "inactive_domains.txt" true])
                    "inactive_domains.txt" (domain ++ "\n"))]
               else [])) ∧
      (w.filesOk →
        Event.WriteString "inactive_domains.txt" (domain ++ "\n") (domain ++ "\n").length ∈
            ((checkDomain cfg domain).run w t).2 ∧
          writesTo "inactive_domains.txt" ((checkDomain cfg domain).run w t).2 = true ∧
          writesTo "active_domains.txt" ((checkDomain cfg domain).run w t).2 = false) := by
  have hrun := checkDomain_run_unrendered w cfg domain t hres scheme r pre hf hb
  have hlist : ((checkDomain cfg domain).run w t).2 =
      Event.LookupHost domain true ::
        (pre ++ Event.chromedpRun r.URLString false ::
          Event.OpenFile "inactive_domains.txt"
              (w.OpenFile
                (t ++ [Event.LookupHost domain true] ++ pre ++
                  [Event.chromedpRun r.URLString false]) "inactive_domains.txt") ::
            (if w.OpenFile
                (t ++ [Event.LookupHost domain true] ++ pre ++
                  [Event.chromedpRun r.URLString false]) "inactive_domains.txt" = true then
              [Event.WriteString "inactive_domains.txt" (domain ++ "\n")
                (w.WriteString
                  (t ++ [Event.LookupHost domain true] ++ pre ++
                    [Event.chromedpRun r.URLString false] ++
                    [Event.OpenFile "inactive_domains.txt" true])
                  "inactive_domains.txt" (domain ++ "\n"))]
             else [])) := by
    rw [hrun, appendToFile_run]
  have hwrite : w.filesOk →
      Event.WriteString "inactive_domains.txt" (domain ++ "\n") (domain ++ "\n").length ∈
          ((checkDomain cfg domain).run w t).2 ∧
        writesTo "inactive_domains.txt" ((checkDomain cfg domain).run w t).2 = true ∧
        writesTo "active_domains.txt" ((checkDomain cfg domain).run w t).2 = false := by
    intro hok
    have hd := firstAccepted_isDo w cfg domain _ scheme r pre hf
    have hpre : ∀ f, (pre.any fun e =>
        match e with
        | .WriteString g _ _ => decide (g = f)
        | _ => false) = false := by
      intro f
      rw [List.any_eq_false]
      intro e he
      have := hd e he
      cases e <;> simp_all [Event.isDo]
    refine ⟨?_, ?_, ?_⟩
    · rw [hlist]
      simp [(hok _ _).1, (hok _ _).2]
    · rw [hlist]
      simp [writesTo, List.any_append, hpre, (hok _ _).1]
    · rw [hlist]
      simp [writesTo, List.any_append, hpre, (hok _ _).1]
  have hd := firstAccepted_isDo w cfg domain _ scheme r pre hf
  have hmem : ∀ e ∈ ((checkDomain cfg domain).run w t).2,
      e = Event.LookupHost domain true ∨ e ∈ pre ∨ e = Event.chromedpRun r.URLString false ∨
        e ∈ ((appendToFile "inactive_domains.txt" (domain ++ "\n")).run w
          (t ++ [Event.LookupHost domain true] ++ pre ++
            [Event.chromedpRun r.URLString false])).2 := by
    intro e he
    rw [hrun] at he
    simpa using he
  have hact := (checkDomain_appendsTo w cfg domain t).1
  have hina := (checkDomain_appendsTo w cfg domain t).2
  have hno : appendsTo "active_domains.txt" ((checkDomain cfg domain).run w t).2 = false := by
    cases hq : appendsTo "active_domains.txt" ((checkDomain cfg domain).run w t).2
    · rfl
    · obtain ⟨-, s2, r2, pre2, hf2, hb2⟩ := hact.1 hq
      rw [hf] at hf2
      simp only [Option.some.injEq, Prod.mk.injEq] at hf2
      obtain ⟨-, rfl, rfl⟩ := hf2
      rw [hb] at hb2
      cases hb2
  refine ⟨hrun, by rw [hina, hno]; rfl, hno, ?_, ?_, hlist, hwrite⟩
  · intro e he
    rcases hmem e he with rfl | h | rfl | h
    · rfl
    · have := hd e h
      cases e <;> simp_all [Event.isDo, Event.isPrintf]
    · rfl
    · exact (appendToFile_not_isDo w _ _ _ e h).2.1
  · intro e he text n heq
    subst heq
    rcases hmem _ he with h | h | h | h
    · cases h
    · have := hd _ h
      simp [Event.isDo] at this
    · cases h
    · rw [appendToFile_run] at h
      cases hop : w.OpenFile (t ++ [Event.LookupHost domain true] ++ pre ++
        [Event.chromedpRun r.URLString false]) "inactive_domains.txt" <;> simp [hop] at h

/-- C6. When the first accepted probe of a resolvable domain `D`, reached via scheme `S`,
passes the render check, the file events of `checkDomain` are one call of `appendToFile` on
`active_domains.txt` whose text is `S`, `D`, then ` (Redirected to: H)` exactly when the final
hostname `H` differs from `D`, then a newline. -/
theorem checkDomain_active_line (w : World) (cfg : Config) (domain : String)
    (t : List Event) (scheme : String) (r : Response) (pre : List Event)
    (hres : w.LookupHost t domain = true)
    (hf : firstAccepted w cfg domain (t ++ [Event.LookupHost domain true]) =
      some (scheme, r, pre))
    (hb : w.chromedpRun (t ++ [Event.LookupHost domain true] ++ pre) r.URLString = true) :
    (scheme = "http://" ∨ scheme = "https://") ∧
      ((checkDomain cfg domain).run w t).2.filter Event.isFile =
        ((appendToFile "active_domains.txt"
            (scheme ++ domain ++
              (if r.URLHostname ≠ domain then " (Redirected to: " ++ r.URLHostname ++ ")"
               else "") ++ "\n")).run w
          (t ++ [Event.LookupHost domain true] ++ pre ++
            [Event.chromedpRun r.URLString true, Event.Printf (activeLine scheme domain r)])).2 ∧
      (w.filesOk →
        ((checkDomain cfg domain).run w t).2.filter Event.isFile =
          [Event.OpenFile "active_domains.txt" true,
            Event.WriteString "active_domains.txt"
              (scheme ++ domain ++
                (if r.URLHostname ≠ domain then " (Redirected to: " ++ r.URLHostname ++ ")"
                 else "") ++ "\n")
              (scheme ++ domain ++
                (if r.URLHostname ≠ domain then " (Redirected to: " ++ r.URLHostname ++ ")"
                 else "") ++ "\n").length]) ∧
      (redirectInfo domain r = "" ↔ r.URLHostname = domain) := by
  have hrun := checkDomain_run_active w cfg domain t hres scheme r pre hf hb
  have hd := filter_isFile_of_isDo _ (firstAccepted_isDo w cfg domain _ scheme r pre hf)
  have hri : redirectInfo domain r =
      (if r.URLHostname ≠ domain then " (Redirected to: " ++ r.URLHostname ++ ")" else "") := by
    by_cases h : r.URLHostname = domain
    · simp [redirectInfo, h]
    · have h2 : ¬ domain = r.URLHostname := fun e => h e.symm
      simp [redirectInfo, h, h2]
  have hfile : ((checkDomain cfg domain).run w t).2.filter Event.isFile =
      ((appendToFile "active_domains.txt"
          (scheme ++ domain ++
            (if r.URLHostname ≠ domain then " (Redirected to: " ++ r.URLHostname ++ ")"
             else "") ++ "\n")).run w
        (t ++ [Event.LookupHost domain true] ++ pre ++
          [Event.chromedpRun r.URLString true, Event.Printf (activeLine scheme domain r)])).2 := by
    rw [hrun, ← hri]
    simp only [List.filter_cons, List.filter_append, hd, Event.isFile,
      appendToFile_fileEvents]
    simp
  refine ⟨(firstAccepted_scheme w cfg domain _ scheme r pre hf).1, hfile, ?_, ?_⟩
  · intro hok
    rw [hfile, appendToFile_run]
    simp [(hok _ _).1, (hok _ _).2]
  · rw [hri]
    by_cases h : r.URLHostname = domain
    · simp [h]
    · simp only [ne_eq, h, not_false_eq_true, if_true, iff_false]
      intro h2
      have h3 := congrArg String.length h2
      simp only [String.length_append] at h3
      have h4 : (")" : String).length = 1 := by decide
      have h5 : ("" : String).length = 0 := by decide
      omega

/-- C4. For a resolvable domain the events of `checkDomain` after the lookup begin with the
probe of `http://D`; every request for `http://D` belongs to that probe, so any request for
`https://D` comes after it; and when the probe of `http://D` is accepted no further request is
issued at all, in particular none for `https://D`. -/
theorem checkDomain_http_first (w : World) (cfg : Config) (domain : String) (t : List Event)
    (hres : w.LookupHost t domain = true) :
    ∃ rest,
      ((checkDomain cfg domain).run w t).2 =
        Event.LookupHost domain true ::
          (((tryRequest cfg ("http://" ++ domain)).run w
            (t ++ [Event.LookupHost domain true])).2 ++ rest) ∧
      (∀ e ∈ ((tryRequest cfg ("http://" ++ domain)).run w
          (t ++ [Event.LookupHost domain true])).2, ∃ x, e = Event.Do ("http://" ++ domain) x) ∧
      (∀ e ∈ rest, ∀ x, e ≠ Event.Do ("http://" ++ domain) x) ∧
      (accepted cfg ((tryRequest cfg ("http://" ++ domain)).run w
          (t ++ [Event.LookupHost domain true])).1 = true →
        (∀ e ∈ rest, e.isDo = false) ∧
        ∀ x, Event.Do ("https://" ++ domain) x ∉ ((checkDomain cfg domain).run w t).2) := by
  have hp1 := tryRequest_events w cfg ("http://" ++ domain) (t ++ [Event.LookupHost domain true])
  have hp2 := tryRequest_events w cfg ("https://" ++ domain)
    (t ++ [Event.LookupHost domain true] ++
      ((tryRequest cfg ("http://" ++ domain)).run w (t ++ [Event.LookupHost domain true])).2)
  have hne := http_ne_https domain
  -- no request at all after an accepted http probe implies no https request in the run
  have key : ∀ rest : List Event,
      ((checkDomain cfg domain).run w t).2 =
        Event.LookupHost domain true ::
          (((tryRequest cfg ("http://" ++ domain)).run w
            (t ++ [Event.LookupHost domain true])).2 ++ rest) →
      (∀ e ∈ rest, e.isDo = false) →
      ∀ x, Event.Do ("https://" ++ domain) x ∉ ((checkDomain cfg domain).run w t).2 := by
    intro rest hrun hrest x hx
    rw [hrun] at hx
    simp only [List.mem_cons, List.mem_append] at hx
    rcases hx with hx | hx | hx
    · cases hx
    · obtain ⟨y, hy⟩ := hp1 _ hx
      simp only [Event.Do.injEq] at hy
      exact hne hy.1.symm
    · have := hrest _ hx
      simp [Event.isDo] at this
  cases hf : firstAccepted w cfg domain (t ++ [Event.LookupHost domain true]) with
  | none =>
    have h0 := firstAccepted_eq_none w cfg domain _ hf
    refine ⟨((tryRequest cfg ("https://" ++ domain)).run w
        (t ++ [Event.LookupHost domain true] ++
          ((tryRequest cfg ("http://" ++ domain)).run w
            (t ++ [Event.LookupHost domain true])).2)).2 ++
        ((appendToFile "inactive_domains.txt" (domain ++ "\n")).run w
          (t ++ [Event.LookupHost domain true] ++
            bothProbes w cfg domain (t ++ [Event.LookupHost domain true]))).2, ?_, hp1, ?_, ?_⟩
    · rw [checkDomain_run_rejected w cfg domain t hres hf]
      simp [bothProbes]
    · intro e he x hx
      subst hx
      simp only [List.mem_append] at he
      rcases he with he | he
      · obtain ⟨y, hy⟩ := hp2 _ he
        simp only [Event.Do.injEq] at hy
        exact hne hy.1
      · have := (appendToFile_not_isDo w _ _ _ _ he).1
        simp [Event.isDo] at this
    · intro hacc
      rw [h0] at hacc
      cases hacc
  | some x =>
    obtain ⟨scheme, r, pre⟩ := x
    have hrun := checkDomain_run_resolvable w cfg domain t hres
    rw [hf] at hrun
    dsimp only at hrun
    rcases (firstAccepted_eq_some_iff w cfg domain _ scheme r pre).1 hf with
      ⟨-, -, rfl, rfl⟩ | ⟨h0, -, -, rfl, rfl⟩
    · have hrest := recordAccepted_not_isDo w domain ("http://" ++ domain) r
        (t ++ [Event.LookupHost domain true] ++
          ((tryRequest cfg ("http://" ++ domain)).run w (t ++ [Event.LookupHost domain true])).2)
      refine ⟨_, hrun, hp1, ?_, fun _ => ⟨hrest, key _ hrun hrest⟩⟩
      intro e he x hx
      subst hx
      have := hrest _ he
      simp [Event.isDo] at this
    · refine ⟨((tryRequest cfg ("https://" ++ domain)).run w
          (t ++ [Event.LookupHost domain true] ++
            ((tryRequest cfg ("http://" ++ domain)).run w
              (t ++ [Event.LookupHost domain true])).2)).2 ++
          ((recordAccepted domain ("https://" ++ domain) r).run w
            (t ++ [Event.LookupHost domain true] ++
              (((tryRequest cfg ("http://" ++ domain)).run w
                (t ++ [Event.LookupHost domain true])).2 ++
              ((tryRequest cfg ("https://" ++ domain)).run w
                (t ++ [Event.LookupHost domain true] ++
                  ((tryRequest cfg ("http://" ++ domain)).run w
                    (t ++ [Event.LookupHost domain true])).2)).2))).2, ?_, hp1, ?_, ?_⟩
      · rw [hrun]
        simp
      · intro e he x hx
        subst hx
        simp only [List.mem_append] at he
        rcases he with he | he
        · obtain ⟨y, hy⟩ := hp2 _ he
          simp only [Event.Do.injEq] at hy
          exact hne hy.1
        · have := recordAccepted_not_isDo w _ _ _ _ _ he
          simp [Event.isDo] at this
      · intro hacc
        rw [h0] at hacc
        cases hacc

/-- C7. `tryRequest` for a URL from which a request can be built: the attempts are issued one
after another; the response of the first attempt that receives one is returned at once, whatever
its status; the result is a failure exactly when each of the first `retryCount` attempts ends in
a transport failure, after exactly `retryCount` attempts; never more than `retryCount` attempts
are issued.  With `retryCount = 2` a prober failing twice and answering from the third attempt
on yields a failure after two attempts. -/
theorem tryRequest_retries (w : World) (cfg : Config) (url : String) (t : List Event)
    (hq : w.NewRequest url = true) :
    (((tryRequest cfg url).run w t).1 = none ↔
        ∀ j < cfg.retryCount, w.Do (afterFailures url t j) url = none) ∧
      (((tryRequest cfg url).run w t).1 = none →
        ((tryRequest cfg url).run w t).2 = List.replicate cfg.retryCount (Event.Do url none)) ∧
      (∀ resp, ((tryRequest cfg url).run w t).1 = some resp →
        ∃ k, k < cfg.retryCount ∧ (∀ j < k, w.Do (afterFailures url t j) url = none) ∧
          w.Do (afterFailures url t k) url = some resp ∧
          ((tryRequest cfg url).run w t).2 =
            List.replicate k (Event.Do url none) ++ [Event.Do url (some resp)]) ∧
      ((tryRequest cfg url).run w t).2.length ≤ cfg.retryCount ∧
      (∀ e ∈ ((tryRequest cfg url).run w t).2, ∃ x, e = Event.Do url x) ∧
      (tryRequest { defaultConfig with retryCount := 2 } url).run flakyWorld [] =
        (none, [Event.Do url none, Event.Do url none]) ∧
      flakyWorld.Do [Event.Do url none, Event.Do url none] url =
        some { StatusCode := 200, URLString := url, URLHostname := "example.com" } := by
  have hev := tryRequest_events w cfg url t
  have hflaky : (tryRequest { defaultConfig with retryCount := 2 } url).run flakyWorld [] =
      (none, [Event.Do url none, Event.Do url none]) := by
    simp [tryRequest, tryRequestLoop, Prog.run, flakyWorld, Event.isDo]
  have hthird : flakyWorld.Do [Event.Do url none, Event.Do url none] url =
      some { StatusCode := 200, URLString := url, URLHostname := "example.com" } := by
    simp [flakyWorld, Event.isDo]
  unfold tryRequest at hev ⊢
  rcases tryRequestLoop_cases w url hq cfg.retryCount t with
    ⟨k, resp, hk, hfail, hresp, hr⟩ | ⟨hfail, hr⟩
  · refine ⟨?_, ?_, ?_, ?_, hev, hflaky, hthird⟩
    · rw [hr]
      constructor
      · intro h; cases h
      · intro h
        have := h k hk
        rw [hresp] at this
        cases this
    · rw [hr]; intro h; cases h
    · rw [hr]
      intro resp2 h
      simp only [Option.some.injEq] at h
      subst h
      exact ⟨k, hk, hfail, hresp, rfl⟩
    · rw [hr]
      simp only [List.length_append, List.length_replicate, List.length_singleton]
      omega
  · refine ⟨?_, ?_, ?_, ?_, hev, hflaky, hthird⟩
    · rw [hr]
      exact ⟨fun _ => hfail, fun _ => rfl⟩
    · rw [hr]; intro _; rfl
    · rw [hr]; intro resp h; cases h
    · rw [hr]; simp

theorem scanDomains_eq (lines domains : List String) :
    scanDomains lines domains =
      domains ++ (lines.map TrimSpace).filter (fun d => decide (d ≠ "")) := by
  induction lines generalizing domains with
  | nil => simp [scanDomains]
  | cons text rest ih =>
    by_cases h : TrimSpace text = ""
    · simp [scanDomains, h, ih]
    · simp [scanDomains, h, ih]

theorem TrimSpace_head (s : String) (c : Char) (h : (TrimSpace s).data.head? = some c) :
    isSpace c = false := by
  simp only [TrimSpace] at h
  have hpfx : List.rdropWhile isSpace (s.data.dropWhile isSpace) <+:
      s.data.dropWhile isSpace := List.rdropWhile_prefix isSpace _
  obtain ⟨tl, htl⟩ := hpfx
  have h2 : (s.data.dropWhile isSpace).head? = some c := by
    rw [← htl]
    cases hl : List.rdropWhile isSpace (s.data.dropWhile isSpace) with
    | nil => rw [hl] at h; simp at h
    | cons a l => rw [hl] at h; simpa using h
  have h3 := List.head?_dropWhile_not isSpace s.data
  rw [h2] at h3
  simpa using h3

theorem TrimSpace_last (s : String) (c : Char) (h : (TrimSpace s).data.getLast? = some c) :
    isSpace c = false := by
  simp only [TrimSpace] at h
  have hne : List.rdropWhile isSpace (s.data.dropWhile isSpace) ≠ [] := by
    intro h0; rw [h0] at h; simp at h
  have h2 := List.rdropWhile_last_not isSpace (s.data.dropWhile isSpace) hne
  rw [List.getLast?_eq_getLast _ hne] at h
  simp only [Option.some.injEq] at h
  rw [h] at h2
  simpa using h2

theorem TrimSpace_eq_empty_iff (s : String) :
    TrimSpace s = "" ↔ ∀ c ∈ s.data, isSpace c = true := by
  have : TrimSpace s = "" ↔ List.rdropWhile isSpace (s.data.dropWhile isSpace) = [] := by
    simp only [TrimSpace]
    constructor
    · intro h; exact congrArg String.data h
    · intro h; rw [h]
  rw [this, List.rdropWhile_eq_nil_iff]
  constructor
  · intro h
    have h2 : s.data.dropWhile isSpace = [] := by
      cases hl : s.data.dropWhile isSpace with
      | nil => rfl
      | cons a l =>
        have h3 := List.head?_dropWhile_not isSpace s.data
        rw [hl] at h3 h
        have := h a (List.mem_cons_self a l)
        simp only [List.head?_cons] at h3
        rw [h3] at this
        cases this
    exact List.dropWhile_eq_nil_iff.1 h2
  · intro h x hx
    exact h x ((List.dropWhile_sublist _).subset hx)

theorem parseCodes_eq (codes : List String) (acc : List Int) :
    parseCodes codes acc = acc ++ codes.map (fun codeStr => Sscanf (TrimSpace codeStr)) := by
  induction codes generalizing acc with
  | nil => simp [parseCodes]
  | cons c cs ih => simp [parseCodes, ih]

theorem splitComma_ne_nil (l : List Char) : splitComma l ≠ [] := by
  cases l with
  | nil => simp [splitComma]
  | cons c cs =>
    by_cases h : c = ','
    · simp [splitComma, h]
    · cases hs : splitComma cs <;> simp [splitComma, h, hs]

theorem splitComma_length (l : List Char) : (splitComma l).length = l.count ',' + 1 := by
  induction l with
  | nil => simp [splitComma]
  | cons c cs ih =>
    by_cases h : c = ','
    · subst h
      simp [splitComma, ih]
    · have hc : (c == ',') = false := by simpa using h
      cases hs : splitComma cs with
      | nil => exact absurd hs (splitComma_ne_nil cs)
      | cons piece pieces =>
        rw [hs] at ih
        simp only [splitComma, h, if_false, hs, List.length_cons, List.count_cons, hc] at ih ⊢
        simpa using ih

theorem isDigit_toNat (c : Char) (h : c.isDigit = true) : 48 ≤ c.toNat ∧ c.toNat ≤ 57 := by
  simp only [Char.isDigit, Bool.and_eq_true, decide_eq_true_eq] at h
  obtain ⟨h1, h2⟩ := h
  have h1n : (48 : UInt32).toNat ≤ c.val.toNat := h1
  have h2n : c.val.toNat ≤ (57 : UInt32).toNat := h2
  exact ⟨h1n, h2n⟩

theorem isSpace_of_isDigit (c : Char) (h : c.isDigit = true) : isSpace c = false := by
  obtain ⟨h1, h2⟩ := isDigit_toNat c h
  simp only [isSpace, Bool.or_eq_false_iff, Bool.and_eq_false_imp, beq_eq_false_iff_ne,
    decide_eq_true_eq, decide_eq_false_iff_not]
  omega

theorem SkipSpace_of_head (l : List Char) (h : ∀ c, l.head? = some c → isSpace c = false) :
    SkipSpace l = some l := by
  cases l with
  | nil => rfl
  | cons c cs =>
    have hc := h c rfl
    have h1 : c ≠ '\r' := by
      intro e; subst e; revert hc; decide
    have h2 : c ≠ '\n' := by
      intro e; subst e; revert hc; decide
    simp [SkipSpace, h1, h2, hc]

theorem acceptSign_digit (c : Char) (l : List Char) (h : c.isDigit = true) :
    acceptSign (c :: l) = (false, c :: l) := by
  have hn := isDigit_toNat c h
  have h1 : c ≠ '+' := by
    intro e; subst e; revert h; decide
  have h2 : c ≠ '-' := by
    intro e; subst e; revert h; decide
  unfold acceptSign
  split
  · rename_i heq; simp only [List.cons.injEq] at heq; exact absurd heq.1 h1
  · rename_i heq; simp only [List.cons.injEq] at heq; exact absurd heq.1 h2
  · rfl

theorem takeWhile_digits (ds tail : List Char) (hd : ∀ c ∈ ds, c.isDigit = true)
    (ht : ∀ c, tail.head? = some c → c.isDigit = false) :
    (ds ++ tail).takeWhile Char.isDigit = ds := by
  induction ds with
  | nil =>
    cases tail with
    | nil => rfl
    | cons c cs => simp [List.takeWhile_cons, ht c rfl]
  | cons d ds ih =>
    have hd1 := hd d (List.mem_cons_self d ds)
    simp only [List.cons_append, List.takeWhile_cons, hd1, if_true, List.cons.injEq, true_and]
    exact ih (fun c hc => hd c (List.mem_cons_of_mem d hc))

theorem isSpace_plus_minus : isSpace '+' = false ∧ isSpace '-' = false := by decide

/-- The verb `%d` on a text that begins with an optionally signed run of digits. -/
theorem scanInt_number (sgn ds tail : List Char)
    (hs : sgn = [] ∨ sgn = ['+'] ∨ sgn = ['-']) (hds : ds ≠ [])
    (hd : ∀ c ∈ ds, c.isDigit = true) (ht : ∀ c, tail.head? = some c → c.isDigit = false) :
    scanInt (sgn ++ ds ++ tail) =
      if -(2 : Int) ^ 63 ≤ (if sgn = ['-'] then -(digitsValue ds : Int) else (digitsValue ds : Int)) ∧
          (if sgn = ['-'] then -(digitsValue ds : Int) else (digitsValue ds : Int)) < (2 : Int) ^ 63
      then some (if sgn = ['-'] then -(digitsValue ds : Int) else (digitsValue ds : Int))
      else none := by
  have htw := takeWhile_digits ds tail hd ht
  obtain ⟨d, ds1, rfl⟩ := List.exists_cons_of_ne_nil hds
  have hdd := hd d (List.mem_cons_self d ds1)
  rcases hs with rfl | rfl | rfl
  · have hskip : SkipSpace ([] ++ d :: ds1 ++ tail) = some ([] ++ d :: ds1 ++ tail) := by
      apply SkipSpace_of_head
      intro c hc
      simp only [List.nil_append, List.cons_append, List.head?_cons, Option.some.injEq] at hc
      subst hc
      exact isSpace_of_isDigit _ hdd
    have hacc : acceptSign ([] ++ d :: ds1 ++ tail) = (false, d :: ds1 ++ tail) := by
      simpa using acceptSign_digit d (ds1 ++ tail) hdd
    simp only [scanInt, hskip, hacc, htw]
    simp
  · have hskip : SkipSpace (['+'] ++ d :: ds1 ++ tail) = some (['+'] ++ d :: ds1 ++ tail) := by
      apply SkipSpace_of_head
      intro c hc
      simp only [List.singleton_append, List.cons_append, List.head?_cons,
        Option.some.injEq] at hc
      subst hc
      exact isSpace_plus_minus.1
    have hacc : acceptSign (['+'] ++ d :: ds1 ++ tail) = (false, d :: ds1 ++ tail) := by
      simp [acceptSign]
    simp only [scanInt, hskip, hacc, htw]
    simp
  · have hskip : SkipSpace (['-'] ++ d :: ds1 ++ tail) = some (['-'] ++ d :: ds1 ++ tail) := by
      apply SkipSpace_of_head
      intro c hc
      simp only [List.singleton_append, List.cons_append, List.head?_cons,
        Option.some.injEq] at hc
      subst hc
      exact isSpace_plus_minus.2
    have hacc : acceptSign (['-'] ++ d :: ds1 ++ tail) = (true, d :: ds1 ++ tail) := by
      simp [acceptSign]
    simp only [scanInt, hskip, hacc, htw]
    simp

/-- The verb `%d` on a text without leading blanks that does not begin with an optionally signed digit. -/
theorem scanInt_no_number (l : List Char) (hsp : ∀ c, l.head? = some c → isSpace c = false)
    (hno : ∀ sgn d rest, l = sgn ++ d :: rest → (sgn = [] ∨ sgn = ['+'] ∨ sgn = ['-']) →
      d.isDigit = false) :
    scanInt l = none := by
  have hskip := SkipSpace_of_head l hsp
  have htw : (acceptSign l).2.takeWhile Char.isDigit = [] := by
    cases hr : (acceptSign l).2 with
    | nil => rfl
    | cons d rest =>
      have hdig : d.isDigit = false := by
        unfold acceptSign at hr
        split at hr
        · simp only at hr; subst hr
          exact hno ['+'] d rest rfl (Or.inr (Or.inl rfl))
        · simp only at hr; subst hr
          exact hno ['-'] d rest rfl (Or.inr (Or.inr rfl))
        · simp only at hr; subst hr
          exact hno [] d rest rfl (Or.inl rfl)
      simp [List.takeWhile_cons, hdig]
  simp only [scanInt, hskip, htw]
  simp

/-- C8 (as stated) fails: the malformed entry `200abc` contributes 200, while the claim has
every malformed entry contribute 0; and the decimal integer `99999999999999999999`, which does
not fit in an `int`, contributes 0 and not itself. -/
theorem mainStatusCodes_malformed_nonzero :
    isDecimalInteger (TrimSpace "200abc") = false ∧
      (Split "200abc").map claimedCode = [0] ∧
      mainStatusCodes ["domain_checker", "domains.txt", "200abc"] = some [200] ∧
      isDecimalInteger (TrimSpace "99999999999999999999") = true ∧
      mainStatusCodes ["domain_checker", "domains.txt", "99999999999999999999"] = some [0] ∧
      ¬ (∀ arg : String, mainStatusCodes ["domain_checker", "domains.txt", arg] =
          some ((Split arg).map claimedCode)) := by
  refine ⟨by decide, by decide, by decide, by decide, by decide, ?_⟩
  intro h
  exact absurd (h "200abc") (by decide)

/-- C8 (amended). The status codes built by `main` from a status-codes argument replace
the default `[200]` and hold one value per comma-separated entry, in order.  An entry whose trimmed
text begins with an optionally signed run of decimal digits contributes the value of the longest
such run, whatever follows the digits, when that value fits in a 64-bit `int`, and 0 when it
does not; an entry whose trimmed text does not begin with an optionally signed digit
contributes 0.  `200,301` gives `[200, 301]` and `abc` gives `[0]`. -/
theorem mainStatusCodes_entries :
    (∀ prog file arg rest,
      mainStatusCodes (prog :: file :: arg :: rest) =
        some ((Split arg).map (fun entry => Sscanf (TrimSpace entry)))) ∧
    (∀ arg, (Split arg).length = arg.data.count ',' + 1) ∧
    (∀ entry sgn ds tail,
      (TrimSpace entry).data = sgn ++ ds ++ tail →
      (sgn = [] ∨ sgn = ['+'] ∨ sgn = ['-']) → ds ≠ [] →
      (∀ c ∈ ds, c.isDigit = true) → (∀ c, tail.head? = some c → c.isDigit = false) →
      Sscanf (TrimSpace entry) =
        if -(2 : Int) ^ 63 ≤
              (if sgn = ['-'] then -(digitsValue ds : Int) else (digitsValue ds : Int)) ∧
            (if sgn = ['-'] then -(digitsValue ds : Int) else (digitsValue ds : Int)) <
              (2 : Int) ^ 63
        then (if sgn = ['-'] then -(digitsValue ds : Int) else (digitsValue ds : Int))
        else 0) ∧
    (∀ entry,
      (∀ sgn d rest, (TrimSpace entry).data = sgn ++ d :: rest →
        (sgn = [] ∨ sgn = ['+'] ∨ sgn = ['-']) → d.isDigit = false) →
      Sscanf (TrimSpace entry) = 0) ∧
    mainStatusCodes ["domain_checker", "domains.txt", "200,301"] = some [200, 301] ∧
    mainStatusCodes ["domain_checker", "domains.txt", "abc"] = some [0] ∧
    mainStatusCodes ["domain_checker", "domains.txt"] = some [200] := by
  refine ⟨?_, ?_, ?_, ?_, by decide, by decide, by decide⟩
  · intro prog file arg rest
    simp [mainStatusCodes, parseCodes_eq]
  · intro arg
    simp [Split, splitComma_length]
  · intro entry sgn ds tail hdata hs hds hd ht
    have h := scanInt_number sgn ds tail hs hds hd ht
    rw [← hdata] at h
    simp only [Sscanf, h]
    generalize (if sgn = ['-'] then -(digitsValue ds : Int) else (digitsValue ds : Int)) = i
    by_cases hr : -(2 : Int) ^ 63 ≤ i ∧ i < (2 : Int) ^ 63
    · rw [if_pos hr, if_pos hr]
    · rw [if_neg hr, if_neg hr]
  · intro entry hno
    have h := scanInt_no_number (TrimSpace entry).data (TrimSpace_head entry) hno
    simp [Sscanf, h]

/-- C9. For a file that can be opened and scanned without error, `readDomainsFromFile` returns
(with a nil error) the lines of the file in order, each with leading and trailing white space
removed, without the lines that are empty after trimming: every returned domain is non-empty
and neither begins nor ends with white space, and the number of domains is the number of lines
that are not blank.  The lines `example.com`, the empty line and
`  this-domain-does-not-resolve.invalid  ` give the two trimmed domains. -/
theorem readDomainsFromFile_lines (openFile : String → Except String ScannedFile)
    (fileName : String) (file : ScannedFile) (hopen : openFile fileName = .ok file)
    (herr : file.err = none) :
    readDomainsFromFile openFile fileName =
        ((file.lines.map TrimSpace).filter (fun d => decide (d ≠ "")), none) ∧
      (∀ d ∈ (readDomainsFromFile openFile fileName).1,
        d ≠ "" ∧ (∀ c, d.data.head? = some c → isSpace c = false) ∧
          (∀ c, d.data.getLast? = some c → isSpace c = false)) ∧
      (readDomainsFromFile openFile fileName).1.length =
        (file.lines.filter (fun line => !line.data.all isSpace)).length ∧
      readDomainsFromFile
          (fun _ => .ok
            { lines := ["example.com", "", "  this-domain-does-not-resolve.invalid  "],
              err := none }) "domains.txt" =
        (["example.com", "this-domain-does-not-resolve.invalid"], none) := by
  have hrun : readDomainsFromFile openFile fileName =
      ((file.lines.map TrimSpace).filter (fun d => decide (d ≠ "")), none) := by
    simp [readDomainsFromFile, hopen, herr, scanDomains_eq]
  refine ⟨hrun, ?_, ?_, by decide⟩
  · intro d hd
    rw [hrun] at hd
    simp only [List.mem_filter, List.mem_map, decide_eq_true_eq] at hd
    obtain ⟨⟨line, -, rfl⟩, hne⟩ := hd
    exact ⟨hne, TrimSpace_head line, TrimSpace_last line⟩
  · rw [hrun]
    simp only [List.filter_map, List.length_map]
    congr 1
    apply List.filter_congr
    intro line _
    simp only [Function.comp]
    by_cases h : TrimSpace line = ""
    · have := (TrimSpace_eq_empty_iff line).1 h
      simp only [h, ne_eq, not_true_eq_false, decide_False]
      symm
      simpa [List.all_eq_true] using this
    · have h2 : ¬ ∀ c ∈ line.data, isSpace c = true :=
        fun hall => h ((TrimSpace_eq_empty_iff line).2 hall)
      simp only [h, ne_eq, not_false_eq_true, decide_True]
      symm
      simpa [List.all_eq_true] using h2

theorem Prog.all_mono {α : Type} (p : Prog α) (Q R : List Event → α → Prop)
    (h : ∀ evs a, Q evs a → R evs a) (hp : p.all Q) : p.all R := by
  induction p generalizing Q R with
  | ret a => exact h _ _ hp
  | LookupHost u k ih => exact fun b => ih b _ _ (fun evs a => h _ a) (hp b)
  | NewRequest u k ih => exact fun b => ih b _ _ h (hp b)
  | Do u k ih => exact fun b => ih b _ _ (fun evs a => h _ a) (hp b)
  | chromedpRun u k ih => exact fun b => ih b _ _ (fun evs a => h _ a) (hp b)
  | OpenFile u k ih => exact fun b => ih b _ _ (fun evs a => h _ a) (hp b)
  | WriteString n s k ih => exact fun b => ih b _ _ (fun evs a => h _ a) (hp b)
  | Printf s k ih => exact ih _ _ (fun evs a => h _ a) hp

theorem Prog.all_bind {α β : Type} (p : Prog α) (f : α → Prog β) (Q : List Event → β → Prop)
    (hp : p.all (fun evs a => (f a).all (fun evs2 b => Q (evs ++ evs2) b))) :
    (p.bind f).all Q := by
  induction p generalizing Q with
  | ret a => simpa [Prog.bind, Prog.all] using hp
  | LookupHost u k ih => exact fun b => ih b _ (hp b)
  | NewRequest u k ih => exact fun b => ih b _ (hp b)
  | Do u k ih => exact fun b => ih b _ (hp b)
  | chromedpRun u k ih => exact fun b => ih b _ (hp b)
  | OpenFile u k ih => exact fun b => ih b _ (hp b)
  | WriteString n s k ih => exact fun b => ih b _ (hp b)
  | Printf s k ih => exact ih _ hp

/-- A sequential run is one of the behaviours. -/
theorem Prog.all_run {α : Type} (w : World) (p : Prog α) (Q : List Event → α → Prop)
    (t : List Event) (hp : p.all Q) : Q (p.run w t).2 (p.run w t).1 := by
  induction p generalizing Q t with
  | ret a => exact hp
  | LookupHost u k ih => exact ih _ _ _ (hp _)
  | NewRequest u k ih => exact ih _ _ _ (hp _)
  | Do u k ih => exact ih _ _ _ (hp _)
  | chromedpRun u k ih => exact ih _ _ _ (hp _)
  | OpenFile u k ih => exact ih _ _ _ (hp _)
  | WriteString n s k ih => exact ih _ _ _ (hp _)
  | Printf s k ih => exact ih _ _ hp

/-- One effect leads to a program all of whose behaviours continue the events produced. -/
theorem Prog.all_step {α : Type} (w : World) (t : List Event) (p p1 : Prog α)
    (evs : List Event) (Q : List Event → α → Prop) (hp : p.all Q)
    (hs : p.step w t = some (p1, evs)) : p1.all (fun evs2 a => Q (evs ++ evs2) a) := by
  cases p with
  | ret a => simp [Prog.step] at hs
  | LookupHost u k =>
    simp only [Prog.step, Option.some.injEq, Prod.mk.injEq] at hs
    obtain ⟨rfl, rfl⟩ := hs
    exact hp _
  | NewRequest u k =>
    simp only [Prog.step, Option.some.injEq, Prod.mk.injEq] at hs
    obtain ⟨rfl, rfl⟩ := hs
    exact hp _
  | Do u k =>
    simp only [Prog.step, Option.some.injEq, Prod.mk.injEq] at hs
    obtain ⟨rfl, rfl⟩ := hs
    exact hp _
  | chromedpRun u k =>
    simp only [Prog.step, Option.some.injEq, Prod.mk.injEq] at hs
    obtain ⟨rfl, rfl⟩ := hs
    exact hp _
  | OpenFile u k =>
    simp only [Prog.step, Option.some.injEq, Prod.mk.injEq] at hs
    obtain ⟨rfl, rfl⟩ := hs
    exact hp _
  | WriteString n s k =>
    simp only [Prog.step, Option.some.injEq, Prod.mk.injEq] at hs
    obtain ⟨rfl, rfl⟩ := hs
    exact hp _
  | Printf s k =>
    simp only [Prog.step, Option.some.injEq, Prod.mk.injEq] at hs
    obtain ⟨rfl, rfl⟩ := hs
    exact hp

/-- A program that cannot move has returned. -/
theorem Prog.all_of_step_none {α : Type} (w : World) (t : List Event) (p : Prog α)
    (Q : List Event → α → Prop) (hp : p.all Q) (hs : p.step w t = none) : ∃ a, Q [] a := by
  cases p with
  | ret a => exact ⟨a, hp⟩
  | LookupHost u k => simp [Prog.step] at hs
  | NewRequest u k => simp [Prog.step] at hs
  | Do u k => simp [Prog.step] at hs
  | chromedpRun u k => simp [Prog.step] at hs
  | OpenFile u k => simp [Prog.step] at hs
  | WriteString n s k => simp [Prog.step] at hs
  | Printf s k => simp [Prog.step] at hs

theorem OneRecord_append (pre evs : List Event) (hpre : pre.filter Event.isFile = [])
    (h : OneRecord evs) : OneRecord (pre ++ evs) := by
  obtain ⟨f, text, ok, n, hf, he⟩ := h
  exact ⟨f, text, ok, n, hf, by simp [List.filter_append, hpre, he]⟩

theorem appendToFile_all (f text : String)
    (hf : f = "active_domains.txt" ∨ f = "inactive_domains.txt") :
    (appendToFile f text).all (fun evs _ => OneRecord evs) := by
  intro b
  cases b
  · exact ⟨f, text, false, 0, hf, by simp [Event.isFile]⟩
  · intro m
    exact ⟨f, text, true, m, hf, by simp [Event.isFile]⟩

theorem tryRequestLoop_all (url : String) (n : Nat) :
    (tryRequestLoop url n).all (fun evs _ => evs.filter Event.isFile = []) := by
  induction n with
  | zero => simp [tryRequestLoop, Prog.all]
  | succ n ih =>
    intro b
    cases b
    · exact ih
    · intro r
      cases r with
      | none =>
        refine Prog.all_mono _ _ _ ?_ ih
        intro evs _ h
        simpa [Event.isFile] using h
      | some resp => simp [Prog.all, Event.isFile]

theorem recordAccepted_eq (domain url : String) (r : Response) :
    recordAccepted domain url r =
      Prog.chromedpRun r.URLString fun ok =>
        if ok = true then
          Prog.Printf
            ("Active: " ++ url ++ " (Status Code: " ++ toString r.StatusCode ++ ")"
              ++ redirectInfo domain r ++ "\n")
            (appendToFile "active_domains.txt" (url ++ redirectInfo domain r ++ "\n"))
        else appendToFile "inactive_domains.txt" (domain ++ "\n") := by
  simp only [recordAccepted, browserCheck, Prog.bind_eq, Prog.bind]
  congr
  funext ok
  cases ok <;> rfl

theorem checkDomain_eq (cfg : Config) (domain : String) :
    checkDomain cfg domain =
      Prog.LookupHost domain fun ok =>
        if ok = true then
          (checkProtocols cfg domain ["http://", "https://"]).bind fun isActive =>
            if isActive = true then Prog.ret ()
            else appendToFile "inactive_domains.txt" (domain ++ "\n")
        else appendToFile "inactive_domains.txt" (domain ++ "\n") := by
  simp only [checkDomain, isDomainResolvable, Prog.bind_eq, Prog.bind]
  congr
  funext ok
  cases ok
  · rfl
  · simp only [Bool.not_true, Bool.false_eq_true, if_false, if_true, Prog.bind_eq]
    congr
    funext isActive
    cases isActive <;> rfl

theorem recordAccepted_all (domain url : String) (r : Response) :
    (recordAccepted domain url r).all (fun evs _ => OneRecord evs) := by
  rw [recordAccepted_eq]
  intro b
  cases b
  · refine Prog.all_mono _ _ _ ?_ (appendToFile_all "inactive_domains.txt" _ (Or.inr rfl))
    intro evs _ h
    exact OneRecord_append [_] evs (by simp [Event.isFile]) h
  · change (appendToFile "active_domains.txt" (url ++ redirectInfo domain r ++ "\n")).all
      (fun evs _ => OneRecord (Event.chromedpRun r.URLString true :: Event.Printf _ :: evs))
    refine Prog.all_mono _ _ _ ?_ (appendToFile_all "active_domains.txt" _ (Or.inl rfl))
    intro evs _ h
    exact OneRecord_append [_, _] evs (by simp [Event.isFile]) h

theorem checkProtocols_all (cfg : Config) (domain : String) (protocols : List String) :
    (checkProtocols cfg domain protocols).all
      (fun evs isActive => if isActive = true then OneRecord evs
        else evs.filter Event.isFile = []) := by
  induction protocols with
  | nil => simp [checkProtocols, Prog.pure_eq, Prog.all]
  | cons protocol rest ih =>
    rw [checkProtocols, Prog.bind_eq]
    apply Prog.all_bind
    refine Prog.all_mono _ _ _ ?_ (tryRequestLoop_all (protocol ++ domain) cfg.retryCount)
    intro evs result hevs
    have hrest : (checkProtocols cfg domain rest).all
        (fun evs2 isActive => if isActive = true then OneRecord (evs ++ evs2)
          else (evs ++ evs2).filter Event.isFile = []) := by
      refine Prog.all_mono _ _ _ ?_ ih
      intro evs2 isActive h
      cases isActive
      · simpa [List.filter_append, hevs] using h
      · simpa using OneRecord_append evs evs2 hevs (by simpa using h)
    cases result with
    | none => exact hrest
    | some response =>
      cases hc : contains cfg.successStatusCodes response.StatusCode
      · simpa [hc] using hrest
      · simp only [hc, if_true, Prog.bind_eq]
        apply Prog.all_bind
        refine Prog.all_mono _ _ _ ?_ (recordAccepted_all domain (protocol ++ domain) response)
        intro evs2 _ h
        simpa [Prog.pure_eq, Prog.all] using OneRecord_append evs evs2 hevs h

/-- Every behaviour of `checkDomain` performs exactly one `appendToFile`. -/
theorem checkDomain_all (cfg : Config) (domain : String) :
    (checkDomain cfg domain).all (fun evs _ => OneRecord evs) := by
  rw [checkDomain_eq]
  intro b
  cases b
  · refine Prog.all_mono _ _ _ ?_ (appendToFile_all "inactive_domains.txt" _ (Or.inr rfl))
    intro evs _ h
    exact OneRecord_append [_] evs (by simp [Event.isFile]) h
  · show (Prog.bind (checkProtocols cfg domain ["http://", "https://"]) _).all _
    apply Prog.all_bind
    refine Prog.all_mono _ _ _ ?_ (checkProtocols_all cfg domain ["http://", "https://"])
    intro evs isActive h
    cases isActive
    · refine Prog.all_mono _ _ _ ?_ (appendToFile_all "inactive_domains.txt" _ (Or.inr rfl))
      intro evs2 _ h2
      simp only [Bool.false_eq_true, if_false] at h
      exact OneRecord_append [_] (evs ++ evs2) (by simp [Event.isFile])
        (OneRecord_append evs evs2 h h2)
    · simp only [if_true] at h
      simpa [Prog.all] using OneRecord_append [_] evs (by simp [Event.isFile]) h

theorem length_filter_set {α : Type} (p : α → Bool) (l : List α) (i : Nat) (g g1 : α)
    (h : l[i]? = some g) :
    ((l.set i g1).filter p).length + (if p g = true then 1 else 0) =
      (l.filter p).length + (if p g1 = true then 1 else 0) := by
  induction l generalizing i with
  | nil => simp at h
  | cons a l ih =>
    cases i with
    | zero =>
      simp only [List.getElem?_cons_zero, Option.some.injEq] at h
      subst h
      simp only [List.set_cons_zero, List.filter_cons]
      cases p a <;> cases p g1 <;> simp
    | succ i =>
      simp only [List.getElem?_cons_succ] at h
      have := ih i h
      simp only [List.set_cons_succ, List.filter_cons]
      cases p a <;> simp <;> omega

theorem sum_map_set {α : Type} (f : α → Nat) (l : List α) (i : Nat) (g g1 : α)
    (h : l[i]? = some g) :
    ((l.set i g1).map f).sum + f g = (l.map f).sum + f g1 := by
  induction l generalizing i with
  | nil => simp at h
  | cons a l ih =>
    cases i with
    | zero =>
      simp only [List.getElem?_cons_zero, Option.some.injEq] at h
      subst h
      simp only [List.set_cons_zero, List.map_cons, List.sum_cons]
      omega
    | succ i =>
      simp only [List.getElem?_cons_succ] at h
      have := ih i h
      simp only [List.set_cons_succ, List.map_cons, List.sum_cons]
      omega

theorem map_domain_set (l : List Goroutine) (i : Nat) (g g1 : Goroutine)
    (h : l[i]? = some g) (hd : g1.domain = g.domain) :
    (l.set i g1).map Goroutine.domain = l.map Goroutine.domain := by
  induction l generalizing i with
  | nil => simp at h
  | cons a l ih =>
    cases i with
    | zero =>
      simp only [List.getElem?_cons_zero, Option.some.injEq] at h
      subst h
      simp [hd]
    | succ i =>
      simp only [List.getElem?_cons_succ] at h
      simp [ih i h]

theorem inv_init (w : World) (cfg : Config) (domains : List String) :
    Inv w cfg domains (State.init domains) where
  sem_eq := rfl
  sem_le := Nat.zero_le _
  wg_eq := by simp [State.init]
  good := by simp [State.init]
  logs := by simp [State.init]
  doms := by simp [State.init]
  answered := by simp [State.init]
  returned := by simp [State.init]

theorem inv_stepMain (w : World) (cfg : Config) (domains : List String) (s s1 : State)
    (hinv : Inv w cfg domains s) (hs : stepMain s = some s1) : Inv w cfg domains s1 := by
  unfold stepMain at hs
  have hret : s.returned = true → s.pending = [] ∧ s.wg = 0 := hinv.returned
  cases hp : s.pending with
  | nil =>
    rw [hp] at hs
    cases hr : s.returned
    · by_cases hw : s.wg = 0
      · simp only [hr, Bool.false_eq_true, if_false, hw, if_true, Option.some.injEq] at hs
        subst hs
        exact
          { sem_eq := hinv.sem_eq, sem_le := hinv.sem_le,
            wg_eq := by simpa [hw] using hinv.wg_eq,
            good := hinv.good, logs := hinv.logs,
            doms := by simpa [hp] using hinv.doms,
            answered := hinv.answered, returned := fun _ => ⟨rfl, rfl⟩ }
      · simp [hr, hw] at hs
    · simp [hr] at hs
  | cons domain rest =>
    rw [hp] at hs
    have hnr : s.returned = false := by
      cases hr : s.returned
      · rfl
      · have := (hret hr).1
        rw [hp] at this
        cases this
    cases ha : s.added
    · simp only [ha, Bool.false_eq_true, if_false, Option.some.injEq] at hs
      subst hs
      refine
        { sem_eq := hinv.sem_eq, sem_le := hinv.sem_le, wg_eq := ?_,
          good := hinv.good, logs := hinv.logs, doms := by simpa [hp] using hinv.doms,
          answered := hinv.answered, returned := ?_ }
      · have := hinv.wg_eq
        simp only [ha, Bool.false_eq_true, if_false] at this
        simp [this]
      · intro h
        simp only [hnr] at h
        cases h
    · simp only [ha, if_true, Option.some.injEq] at hs
      subst hs
      refine
        { sem_eq := ?_, sem_le := hinv.sem_le, wg_eq := ?_, good := ?_, logs := ?_,
          doms := ?_, answered := hinv.answered, returned := ?_ }
      · have := hinv.sem_eq
        simpa [State.inFlight, List.filter_append, Goroutine.inFlight] using this
      · have := hinv.wg_eq
        simp only [ha, if_true] at this
        simp [this, List.filter_append, Goroutine.notDone]
      · intro g hg
        simp only [List.mem_append, List.mem_singleton] at hg
        rcases hg with hg | rfl
        · exact hinv.good g hg
        · simp [Goroutine.Good]
      · intro f
        simpa using hinv.logs f
      · simpa [hp] using hinv.doms
      · intro h
        simp only [hnr] at h
        cases h

theorem Prog.step_answered {α : Type} (w : World) (t : List Event) (p p1 : Prog α)
    (evs : List Event) (hs : p.step w t = some (p1, evs)) (f : String) (ok : Bool)
    (h : Event.OpenFile f ok ∈ evs) : w.OpenFile t f = ok := by
  cases p with
  | ret a => simp [Prog.step] at hs
  | OpenFile u k =>
    simp only [Prog.step, Option.some.injEq, Prod.mk.injEq] at hs
    obtain ⟨-, rfl⟩ := hs
    simp only [List.mem_singleton, Event.OpenFile.injEq] at h
    obtain ⟨rfl, rfl⟩ := h
    rfl
  | LookupHost u k =>
    simp only [Prog.step, Option.some.injEq, Prod.mk.injEq] at hs
    obtain ⟨-, rfl⟩ := hs
    simp at h
  | NewRequest u k =>
    simp only [Prog.step, Option.some.injEq, Prod.mk.injEq] at hs
    obtain ⟨-, rfl⟩ := hs
    simp at h
  | Do u k =>
    simp only [Prog.step, Option.some.injEq, Prod.mk.injEq] at hs
    obtain ⟨-, rfl⟩ := hs
    simp at h
  | chromedpRun u k =>
    simp only [Prog.step, Option.some.injEq, Prod.mk.injEq] at hs
    obtain ⟨-, rfl⟩ := hs
    simp at h
  | WriteString n x k =>
    simp only [Prog.step, Option.some.injEq, Prod.mk.injEq] at hs
    obtain ⟨-, rfl⟩ := hs
    simp at h
  | Printf x k =>
    simp only [Prog.step, Option.some.injEq, Prod.mk.injEq] at hs
    obtain ⟨-, rfl⟩ := hs
    simp at h

theorem not_returned_of_notDone (w : World) (cfg : Config) (domains : List String)
    (s : State) (hinv : Inv w cfg domains s) (g : Goroutine) (hmem : g ∈ s.gs) (hnd : g.notDone = true) :
    s.returned = false := by
  cases hr : s.returned
  · rfl
  · have hw := (hinv.returned hr).2
    have hpos : 0 < (s.gs.filter Goroutine.notDone).length :=
      List.length_pos_of_mem (List.mem_filter.2 ⟨hmem, hnd⟩)
    have := hinv.wg_eq
    rw [hw] at this
    split at this <;> omega

theorem inv_stepGoroutine (w : World) (cfg : Config) (domains : List String) (i : Nat)
    (s s1 : State) (hinv : Inv w cfg domains s) (hs : stepGoroutine w cfg i s = some s1) :
    Inv w cfg domains s1 := by
  unfold stepGoroutine at hs
  cases hg : s.gs[i]? with
  | none => simp [hg] at hs
  | some g =>
    simp only [hg] at hs
    have hmem : g ∈ s.gs := List.getElem?_mem hg
    have hgood := hinv.good g hmem
    have hmemset : ∀ (g1 x : Goroutine), x ∈ s.gs.set i g1 → x.Good ∨ x = g1 := by
      intro g1 x hx
      rcases List.mem_or_eq_of_mem_set hx with h | h
      · exact Or.inl (hinv.good x h)
      · exact Or.inr h
    obtain ⟨domain, phase, log⟩ := g
    cases phase with
    | blocked =>
      by_cases hlt : s.sem < cfg.maxConcurrentChecks
      · simp only [hlt, if_true, Option.some.injEq] at hs
        subst hs
        have hnr := not_returned_of_notDone w cfg domains s hinv _ hmem rfl
        have h1 := length_filter_set Goroutine.inFlight s.gs i _
          { domain := domain, phase := Phase.inCheck (checkDomain cfg domain), log := log } hg
        have h2 := length_filter_set Goroutine.notDone s.gs i _
          { domain := domain, phase := Phase.inCheck (checkDomain cfg domain), log := log } hg
        simp only [Goroutine.inFlight, Goroutine.notDone, Bool.false_eq_true, if_false,
          if_true, Nat.add_zero] at h1 h2
        refine
          { sem_eq := ?_, sem_le := hlt, wg_eq := ?_, good := ?_, logs := ?_, doms := ?_,
            answered := hinv.answered, returned := ?_ }
        · have := hinv.sem_eq
          simp only [State.inFlight] at this ⊢
          omega
        · have := hinv.wg_eq
          simp only at this ⊢
          rw [this]
          congr 2
          omega
        · intro x hx
          rcases hmemset _ x hx with h | rfl
          · exact h
          · have hl : log = [] := hgood
            subst hl
            simpa [Goroutine.Good] using checkDomain_all cfg domain
        · intro f
          have := sum_map_set (fun g : Goroutine => (g.log.map f).sum) s.gs i _
            { domain := domain, phase := Phase.inCheck (checkDomain cfg domain), log := log } hg
          have h3 := hinv.logs f
          simp only at this ⊢
          omega
        · rw [← hinv.doms]
          exact congrArg (fun l => l ++ s.pending) (map_domain_set s.gs i _ _ hg rfl)
        · intro h
          simp only [hnr] at h
          cases h
      · simp [hlt] at hs
    | inCheck rest =>
      have hnr := not_returned_of_notDone w cfg domains s hinv _ hmem rfl
      cases hstep : rest.step w s.trace with
      | some x =>
        obtain ⟨rest1, evs⟩ := x
        simp only [hstep, Option.some.injEq] at hs
        subst hs
        have h1 := length_filter_set Goroutine.inFlight s.gs i _
          { domain := domain, phase := Phase.inCheck rest1, log := log ++ evs } hg
        have h2 := length_filter_set Goroutine.notDone s.gs i _
          { domain := domain, phase := Phase.inCheck rest1, log := log ++ evs } hg
        simp only [Goroutine.inFlight, Goroutine.notDone, if_true] at h1 h2
        refine
          { sem_eq := ?_, sem_le := hinv.sem_le, wg_eq := ?_, good := ?_, logs := ?_,
            doms := ?_, answered := ?_, returned := ?_ }
        · have := hinv.sem_eq
          simp only [State.inFlight] at this ⊢
          omega
        · have := hinv.wg_eq
          simp only at this ⊢
          rw [this]
          congr 2
          omega
        · intro x hx
          rcases hmemset _ x hx with h | rfl
          · exact h
          · have hall : rest.all (fun evs2 _ => OneRecord (log ++ evs2)) := hgood
            have := Prog.all_step w s.trace rest rest1 evs _ hall hstep
            simpa [Goroutine.Good, List.append_assoc] using this
        · intro f
          have := sum_map_set (fun g : Goroutine => (g.log.map f).sum) s.gs i _
            { domain := domain, phase := Phase.inCheck rest1, log := log ++ evs } hg
          have h3 := hinv.logs f
          simp only [List.map_append, List.sum_append] at this ⊢
          omega
        · rw [← hinv.doms]
          exact congrArg (fun l => l ++ s.pending) (map_domain_set s.gs i _ _ hg rfl)
        · intro f ok hmem2
          simp only [List.mem_append] at hmem2
          rcases hmem2 with h | h
          · exact hinv.answered f ok h
          · exact ⟨s.trace, Prog.step_answered w s.trace rest rest1 evs hstep f ok h⟩
        · intro h
          simp only [hnr] at h
          cases h
      | none =>
        by_cases hpos : 0 < s.sem
        · simp only [hstep, hpos, if_true, Option.some.injEq] at hs
          subst hs
          have h1 := length_filter_set Goroutine.inFlight s.gs i _
            { domain := domain, phase := Phase.released, log := log } hg
          have h2 := length_filter_set Goroutine.notDone s.gs i _
            { domain := domain, phase := Phase.released, log := log } hg
          simp only [Goroutine.inFlight, Goroutine.notDone, if_true, Bool.false_eq_true,
            if_false, Nat.add_zero] at h1 h2
          refine
            { sem_eq := ?_, sem_le := ?_, wg_eq := ?_, good := ?_, logs := ?_, doms := ?_,
              answered := hinv.answered, returned := ?_ }
          · have := hinv.sem_eq
            simp only [State.inFlight] at this ⊢
            omega
          · have := hinv.sem_le
            simp only
            omega
          · have := hinv.wg_eq
            simp only at this ⊢
            rw [this]
            congr 2
            omega
          · intro x hx
            rcases hmemset _ x hx with h | rfl
            · exact h
            · have hall : rest.all (fun evs2 _ => OneRecord (log ++ evs2)) := hgood
              obtain ⟨_, h⟩ := Prog.all_of_step_none w s.trace rest _ hall hstep
              simpa [Goroutine.Good] using h
          · intro f
            have := sum_map_set (fun g : Goroutine => (g.log.map f).sum) s.gs i _
              { domain := domain, phase := Phase.released, log := log } hg
            have h3 := hinv.logs f
            simp only at this ⊢
            omega
          · rw [← hinv.doms]
            exact congrArg (fun l => l ++ s.pending) (map_domain_set s.gs i _ _ hg rfl)
          · intro h
            simp only [hnr] at h
            cases h
        · simp [hstep, hpos] at hs
    | released =>
      have hnr := not_returned_of_notDone w cfg domains s hinv _ hmem rfl
      simp only [Option.some.injEq] at hs
      subst hs
      have h1 := length_filter_set Goroutine.inFlight s.gs i _
        { domain := domain, phase := Phase.done, log := log } hg
      have h2 := length_filter_set Goroutine.notDone s.gs i _
        { domain := domain, phase := Phase.done, log := log } hg
      simp only [Goroutine.inFlight, Goroutine.notDone, if_true, Bool.false_eq_true,
        if_false, Nat.add_zero] at h1 h2
      refine
        { sem_eq := ?_, sem_le := hinv.sem_le, wg_eq := ?_, good := ?_, logs := ?_,
          doms := ?_, answered := hinv.answered, returned := ?_ }
      · have := hinv.sem_eq
        simp only [State.inFlight] at this ⊢
        omega
      · have := hinv.wg_eq
        simp only at this ⊢
        rw [this]
        omega
      · intro x hx
        rcases hmemset _ x hx with h | rfl
        · exact h
        · have h : OneRecord log := hgood
          simpa [Goroutine.Good] using h
      · intro f
        have := sum_map_set (fun g : Goroutine => (g.log.map f).sum) s.gs i _
          { domain := domain, phase := Phase.done, log := log } hg
        have h3 := hinv.logs f
        simp only at this ⊢
        omega
      · rw [← hinv.doms]
        exact congrArg (fun l => l ++ s.pending) (map_domain_set s.gs i _ _ hg rfl)
      · intro h
        simp only [hnr] at h
        cases h
    | done => simp at hs

theorem inv_step (w : World) (cfg : Config) (domains : List String) (choice : Option Nat)
    (s s1 : State) (hinv : Inv w cfg domains s) (hs : step w cfg choice s = some s1) :
    Inv w cfg domains s1 := by
  cases choice with
  | none => exact inv_stepMain w cfg domains s s1 hinv hs
  | some i => exact inv_stepGoroutine w cfg domains i s s1 hinv hs

theorem inv_exec (w : World) (cfg : Config) (domains : List String)
    (schedule : List (Option Nat)) (s s1 : State) (hinv : Inv w cfg domains s)
    (hs : exec w cfg schedule s = some s1) : Inv w cfg domains s1 := by
  induction schedule generalizing s with
  | nil =>
    simp only [exec, Option.some.injEq] at hs
    subst hs
    exact hinv
  | cons choice rest ih =>
    simp only [exec] at hs
    cases hstep : step w cfg choice s with
    | none => simp [hstep] at hs
    | some s2 =>
      simp only [hstep] at hs
      exact ih s2 (inv_step w cfg domains choice s s2 hinv hstep) hs

theorem sum_indicator {α : Type} (p : α → Bool) (l : List α) :
    (l.map (fun e => if p e = true then 1 else 0)).sum = l.countP p := by
  induction l with
  | nil => rfl
  | cons a l ih =>
    cases h : p a
    · simp [List.countP_cons, h, ih]
    · simp [List.countP_cons, h, ih]
      omega

theorem countP_filter_isFile (p : Event → Bool) (hp : ∀ e, p e = true → e.isFile = true)
    (l : List Event) : (l.filter Event.isFile).countP p = l.countP p := by
  induction l with
  | nil => rfl
  | cons a l ih =>
    cases hf : a.isFile
    · have hpa : p a = false := by
        cases h : p a
        · rfl
        · rw [hp a h] at hf; cases hf
      simp [List.filter_cons, hf, List.countP_cons, hpa, ih]
    · simp [List.filter_cons, hf, List.countP_cons, ih]

theorem OneRecord_isOpen (evs : List Event) (h : OneRecord evs) :
    evs.countP Event.isOpen = 1 := by
  obtain ⟨f, text, ok, n, -, he⟩ := h
  rw [← countP_filter_isFile Event.isOpen (by intro e; cases e <;> simp [Event.isOpen, Event.isFile]),
    he]
  cases ok <;> simp [List.countP_cons, Event.isOpen]

theorem OneRecord_isForeignOpen (evs : List Event) (h : OneRecord evs) :
    evs.countP Event.isForeignOpen = 0 := by
  obtain ⟨f, text, ok, n, hf, he⟩ := h
  rw [← countP_filter_isFile Event.isForeignOpen
    (by intro e; cases e <;> simp [Event.isForeignOpen, Event.isFile]), he]
  rcases hf with rfl | rfl <;> cases ok <;> simp [List.countP_cons, Event.isForeignOpen]

theorem OneRecord_isWrite (evs : List Event) (h : OneRecord evs)
    (hok : evs.countP Event.isFailedOpen = 0) : evs.countP Event.isWrite = 1 := by
  obtain ⟨f, text, ok, n, -, he⟩ := h
  rw [← countP_filter_isFile Event.isFailedOpen
    (by intro e; cases e <;> simp [Event.isFailedOpen, Event.isFile]), he] at hok
  rw [← countP_filter_isFile Event.isWrite
    (by intro e; cases e <;> simp [Event.isWrite, Event.isFile]), he]
  cases ok
  · simp [List.countP_cons, Event.isFailedOpen] at hok
  · simp [List.countP_cons, Event.isWrite]

theorem sum_map_eq_length {α : Type} (f : α → Nat) (l : List α) (h : ∀ a ∈ l, f a = 1) :
    (l.map f).sum = l.length := by
  induction l with
  | nil => rfl
  | cons a l ih =>
    simp only [List.map_cons, List.sum_cons, List.length_cons]
    rw [h a (List.mem_cons_self a l), ih (fun b hb => h b (List.mem_cons_of_mem a hb))]
    omega

theorem sum_map_eq_zero {α : Type} (f : α → Nat) (l : List α) (h : ∀ a ∈ l, f a = 0) :
    (l.map f).sum = 0 := by
  induction l with
  | nil => rfl
  | cons a l ih =>
    simp only [List.map_cons, List.sum_cons]
    rw [h a (List.mem_cons_self a l), ih (fun b hb => h b (List.mem_cons_of_mem a hb))]

theorem eq_zero_of_sum_map_eq_zero {α : Type} (f : α → Nat) (l : List α)
    (h : (l.map f).sum = 0) : ∀ a ∈ l, f a = 0 := by
  induction l with
  | nil => simp
  | cons a l ih =>
    simp only [List.map_cons, List.sum_cons] at h
    intro b hb
    simp only [List.mem_cons] at hb
    rcases hb with rfl | hb
    · omega
    · exact ih (by omega) b hb

/-- The logs and the history share every count. -/
theorem Inv.countP_trace {w : World} {cfg : Config} {domains : List String} {s : State}
    (hinv : Inv w cfg domains s) (p : Event → Bool) :
    s.trace.countP p = (s.gs.map (fun g => g.log.countP p)).sum := by
  have := hinv.logs (fun e => if p e = true then 1 else 0)
  rw [sum_indicator] at this
  rw [this]
  congr 1
  apply List.map_congr_left
  intro g _
  exact sum_indicator p g.log

/-- After `wg.Wait()` has returned every goroutine is done: one goroutine per domain, each with
exactly one record, and the history holds as many records as there are domains. -/
theorem Inv.returned_records {w : World} {cfg : Config} {domains : List String} {s : State}
    (hinv : Inv w cfg domains s) (hret : s.returned = true) :
    s.gs.map Goroutine.domain = domains ∧
      (∀ g ∈ s.gs, OneRecord g.log) ∧
      s.inFlight = 0 ∧
      s.trace.countP Event.isOpen = domains.length ∧
      s.trace.countP Event.isForeignOpen = 0 ∧
      (w.filesOk → s.trace.countP Event.isWrite = domains.length) := by
  obtain ⟨hpend, hwg⟩ := hinv.returned hret
  have hdoms : s.gs.map Goroutine.domain = domains := by
    have := hinv.doms
    rw [hpend, List.append_nil] at this
    exact this
  have hlen : s.gs.length = domains.length := by
    rw [← hdoms, List.length_map]
  have hnone : s.gs.filter Goroutine.notDone = [] := by
    have := hinv.wg_eq
    rw [hwg] at this
    apply List.eq_nil_of_length_eq_zero
    split at this <;> omega
  have hdone : ∀ g ∈ s.gs, g.notDone = false := by
    intro g hg
    have := (List.filter_eq_nil_iff.1 hnone) g hg
    simpa using this
  have hrec : ∀ g ∈ s.gs, OneRecord g.log := by
    intro g hg
    have hgood := hinv.good g hg
    have hd := hdone g hg
    obtain ⟨domain, phase, log⟩ := g
    cases phase <;> simp [Goroutine.notDone] at hd
    exact hgood
  have hfl : s.inFlight = 0 := by
    simp only [State.inFlight, List.length_eq_zero, List.filter_eq_nil_iff]
    intro g hg
    have hd := hdone g hg
    obtain ⟨domain, phase, log⟩ := g
    cases phase <;> simp [Goroutine.notDone] at hd
    simp [Goroutine.inFlight]
  refine ⟨hdoms, hrec, hfl, ?_, ?_, ?_⟩
  · rw [hinv.countP_trace, ← hlen]
    exact sum_map_eq_length _ _ (fun g hg => OneRecord_isOpen _ (hrec g hg))
  · rw [hinv.countP_trace]
    exact sum_map_eq_zero _ _ (fun g hg => OneRecord_isForeignOpen _ (hrec g hg))
  · intro hok
    have hfail : s.trace.countP Event.isFailedOpen = 0 := by
      rw [List.countP_eq_zero]
      intro e he
      cases e with
      | OpenFile f ok =>
        obtain ⟨t, ht⟩ := hinv.answered f ok he
        rw [(hok t f).1] at ht
        subst ht
        simp [Event.isFailedOpen]
      | _ => simp [Event.isFailedOpen]
    rw [hinv.countP_trace] at hfail
    have hlogs := eq_zero_of_sum_map_eq_zero _ _ hfail
    rw [hinv.countP_trace, ← hlen]
    exact sum_map_eq_length _ _ (fun g hg => OneRecord_isWrite _ (hrec g hg) (hlogs g hg))

theorem exec_append (w : World) (cfg : Config) (a b : List (Option Nat)) (s s1 : State)
    (h : exec w cfg a s = some s1) : exec w cfg (a ++ b) s = exec w cfg b s1 := by
  induction a generalizing s with
  | nil =>
    simp only [exec, Option.some.injEq] at h
    subst h
    rfl
  | cons c a ih =>
    simp only [exec, List.cons_append] at h ⊢
    cases hstep : step w cfg c s with
    | none => simp [hstep] at h
    | some s2 =>
      simp only [hstep] at h ⊢
      exact ih s2 h

theorem getElem?_append_singleton {α : Type} (pre : List α) (g : α) :
    (pre ++ [g])[pre.length]? = some g := by
  simp

theorem set_append_singleton {α : Type} (pre : List α) (g g1 : α) :
    (pre ++ [g]).set pre.length g1 = pre ++ [g1] := by
  induction pre with
  | nil => rfl
  | cons a pre ih => simp [ih]

/-- One effect of the last goroutine. -/
theorem stepGoroutine_effect (w : World) (cfg : Config) (s : State) (pre : List Goroutine)
    (d : String) (p p1 : Prog Unit) (log evs : List Event)
    (hgs : s.gs = pre ++ [{ domain := d, phase := Phase.inCheck p, log := log }])
    (hstep : p.step w s.trace = some (p1, evs)) :
    stepGoroutine w cfg pre.length s =
      some { s with
        trace := s.trace ++ evs,
        gs := pre ++ [{ domain := d, phase := Phase.inCheck p1, log := log ++ evs }] } := by
  unfold stepGoroutine
  rw [hgs, getElem?_append_singleton]
  simp only [hstep, set_append_singleton]

/-- The last goroutine can run its `checkDomain` call to the end. -/
theorem exec_inCheck (w : World) (cfg : Config) (p : Prog Unit) :
    ∀ (s : State) (pre : List Goroutine) (d : String) (log : List Event),
      s.gs = pre ++ [{ domain := d, phase := Phase.inCheck p, log := log }] →
      ∃ k log1 t1, exec w cfg (List.replicate k (some pre.length)) s =
        some { s with
          trace := t1,
          gs := pre ++ [{ domain := d, phase := Phase.inCheck (Prog.ret ()), log := log1 }] } := by
  have next : ∀ (s : State) (pre : List Goroutine) (d : String) (log : List Event)
      (q p1 : Prog Unit) (evs : List Event),
      s.gs = pre ++ [{ domain := d, phase := Phase.inCheck q, log := log }] →
      q.step w s.trace = some (p1, evs) →
      (∀ (s : State) (pre : List Goroutine) (d : String) (log : List Event),
        s.gs = pre ++ [{ domain := d, phase := Phase.inCheck p1, log := log }] →
        ∃ k log1 t1, exec w cfg (List.replicate k (some pre.length)) s =
          some { s with
            trace := t1,
            gs := pre ++ [{ domain := d, phase := Phase.inCheck (Prog.ret ()), log := log1 }] }) →
      ∃ k log1 t1, exec w cfg (List.replicate k (some pre.length)) s =
        some { s with
          trace := t1,
          gs := pre ++ [{ domain := d, phase := Phase.inCheck (Prog.ret ()), log := log1 }] } := by
    intro s pre d log q p1 evs hgs hstep ih
    have h1 := stepGoroutine_effect w cfg s pre d q p1 log evs hgs hstep
    obtain ⟨k, log1, t1, hk⟩ := ih
      { s with
        trace := s.trace ++ evs,
        gs := pre ++ [{ domain := d, phase := Phase.inCheck p1, log := log ++ evs }] }
      pre d (log ++ evs) rfl
    refine ⟨k + 1, log1, t1, ?_⟩
    simp only [List.replicate_succ, exec, step, h1]
    exact hk
  induction p with
  | ret a =>
    intro s pre d log hgs
    refine ⟨0, log, s.trace, ?_⟩
    cases s
    simp only at hgs
    subst hgs
    rfl
  | LookupHost u k ih => exact fun s pre d log hgs => next s pre d log _ _ _ hgs rfl (ih _)
  | NewRequest u k ih => exact fun s pre d log hgs => next s pre d log _ _ _ hgs rfl (ih _)
  | Do u k ih => exact fun s pre d log hgs => next s pre d log _ _ _ hgs rfl (ih _)
  | chromedpRun u k ih => exact fun s pre d log hgs => next s pre d log _ _ _ hgs rfl (ih _)
  | OpenFile u k ih => exact fun s pre d log hgs => next s pre d log _ _ _ hgs rfl (ih _)
  | WriteString n x k ih => exact fun s pre d log hgs => next s pre d log _ _ _ hgs rfl (ih _)
  | Printf x k ih => exact fun s pre d log hgs => next s pre d log _ _ _ hgs rfl ih

/-- From a state in which nothing is in flight, the loop can start the next goroutine and that
goroutine can run to its end. -/
theorem exec_one_domain (w : World) (cfg : Config) (hcap : 0 < cfg.maxConcurrentChecks)
    (s : State) (d : String) (rest : List String) (hp : s.pending = d :: rest)
    (ha : s.added = false) (hw : s.wg = 0) (hsem : s.sem = 0) :
    ∃ schedule s1, exec w cfg schedule s = some s1 ∧ s1.pending = rest ∧ s1.added = false ∧
      s1.returned = s.returned ∧ s1.wg = 0 ∧ s1.sem = 0 := by
  obtain ⟨pending, added, returned, wg, sem, gs, trace⟩ := s
  simp only at hp ha hw hsem
  subst hp ha hw hsem
  obtain ⟨k, log1, t1, hk⟩ := exec_inCheck w cfg (checkDomain cfg d)
    { pending := rest, added := false, returned := returned, wg := 0 + 1, sem := 0 + 1,
      gs := gs ++ [{ domain := d, phase := Phase.inCheck (checkDomain cfg d), log := [] }],
      trace := trace } gs d [] rfl
  refine ⟨[none, none, some gs.length] ++ (List.replicate k (some gs.length) ++
    [some gs.length, some gs.length]),
    { pending := rest, added := false, returned := returned, wg := 0 + 1 - 1, sem := 0 + 1 - 1,
      gs := gs ++ [{ domain := d, phase := Phase.done, log := log1 }], trace := t1 }, ?_, ?_⟩
  · have h3 : exec w cfg [none, none, some gs.length]
        { pending := d :: rest, added := false, returned := returned, wg := 0, sem := 0,
          gs := gs, trace := trace } =
        some
          { pending := rest, added := false, returned := returned, wg := 0 + 1, sem := 0 + 1,
            gs := gs ++ [{ domain := d, phase := Phase.inCheck (checkDomain cfg d), log := [] }],
            trace := trace } := by
      simp [exec, step, stepMain, stepGoroutine, hcap]
    rw [exec_append w cfg _ _ _ _ h3, exec_append w cfg _ _ _ _ hk]
    simp only [exec, step, stepGoroutine, getElem?_append_singleton, Prog.step,
      set_append_singleton]
    simp only [Nat.zero_add, Nat.lt_irrefl, Nat.zero_lt_one, if_true, getElem?_append_singleton,
      set_append_singleton]
  · simp

/-- With a positive capacity, `checkAllDomains` can run to the return of `wg.Wait()`. -/
theorem exec_returns (w : World) (cfg : Config) (hcap : 0 < cfg.maxConcurrentChecks)
    (pending : List String) :
    ∀ s : State, s.pending = pending → s.added = false → s.returned = false → s.wg = 0 →
      s.sem = 0 → ∃ schedule s1, exec w cfg schedule s = some s1 ∧ s1.returned = true := by
  induction pending with
  | nil =>
    intro s hp ha hr hw hsem
    refine ⟨[none], { s with returned := true }, ?_, rfl⟩
    simp [exec, step, stepMain, hp, hr, hw]
  | cons d rest ih =>
    intro s hp ha hr hw hsem
    obtain ⟨sch1, s1, h1, hp1, ha1, hr1, hw1, hsem1⟩ :=
      exec_one_domain w cfg hcap s d rest hp ha hw hsem
    obtain ⟨sch2, s2, h2, hret⟩ := ih s1 hp1 ha1 (hr1.trans hr) hw1 hsem1
    exact ⟨sch1 ++ sch2, s2, by rw [exec_append w cfg _ _ _ _ h1]; exact h2, hret⟩

theorem stepGoroutine_sem (w : World) (cfg : Config) (i : Nat) (s s1 : State)
    (hs : stepGoroutine w cfg i s = some s1) :
    (s1.sem = s.sem + 1 ∧ s.sem < cfg.maxConcurrentChecks) ∨ s1.sem = s.sem ∨
      s1.sem + 1 = s.sem := by
  unfold stepGoroutine at hs
  cases hg : s.gs[i]? with
  | none => simp [hg] at hs
  | some g =>
    simp only [hg] at hs
    obtain ⟨domain, phase, log⟩ := g
    cases phase with
    | blocked =>
      by_cases hlt : s.sem < cfg.maxConcurrentChecks
      · simp only [hlt, if_true, Option.some.injEq] at hs
        subst hs
        exact Or.inl ⟨rfl, hlt⟩
      · simp [hlt] at hs
    | inCheck rest =>
      cases hstep : rest.step w s.trace with
      | some x =>
        simp only [hstep, Option.some.injEq] at hs
        subst hs
        exact Or.inr (Or.inl rfl)
      | none =>
        by_cases hpos : 0 < s.sem
        · simp only [hstep, hpos, if_true, Option.some.injEq] at hs
          subst hs
          right; right
          simp only
          omega
        · simp [hstep, hpos] at hs
    | released =>
      simp only [Option.some.injEq] at hs
      subst hs
      exact Or.inr (Or.inl rfl)
    | done => simp at hs

/-- C1. One run of `checkDomain`, whatever the resolver, the prober and the render verifier
answer, calls `appendToFile` exactly once, on one of `active_domains.txt` and
`inactive_domains.txt`, with a text ending in a newline; when the file system works this writes
exactly one line to exactly one of the two files.  When `checkAllDomains` has returned, under
any schedule, one goroutine per domain has run, each made exactly one record, and the history
holds exactly as many records as there are domains; and with a positive capacity
`checkAllDomains` can run to its return. -/
theorem checkDomain_one_record (w : World) (cfg : Config) :
    (∀ domain t, ∃ f body pre,
      (f = "active_domains.txt" ∨ f = "inactive_domains.txt") ∧
      ((checkDomain cfg domain).run w t).2.filter Event.isFile =
        Event.OpenFile f (w.OpenFile (t ++ pre) f) ::
          (if w.OpenFile (t ++ pre) f = true then
            [Event.WriteString f (body ++ "\n")
              (w.WriteString (t ++ pre ++ [Event.OpenFile f true]) f (body ++ "\n"))]
           else []) ∧
      (w.filesOk →
        ((checkDomain cfg domain).run w t).2.filter Event.isFile =
          [Event.OpenFile f true,
            Event.WriteString f (body ++ "\n") (body ++ "\n").length])) ∧
    (∀ domain, (checkDomain cfg domain).all (fun evs _ => OneRecord evs)) ∧
    (∀ domains schedule s, checkAllDomains w cfg domains schedule = some s →
      s.returned = true →
        s.gs.map Goroutine.domain = domains ∧
        (∀ g ∈ s.gs, OneRecord g.log) ∧
        s.trace.countP Event.isOpen = domains.length ∧
        s.trace.countP Event.isForeignOpen = 0 ∧
        (w.filesOk → s.trace.countP Event.isWrite = domains.length)) ∧
    (0 < cfg.maxConcurrentChecks → ∀ domains, ∃ schedule s,
      checkAllDomains w cfg domains schedule = some s ∧ s.returned = true) := by
  refine ⟨?_, checkDomain_all cfg, ?_, ?_⟩
  · intro domain t
    obtain ⟨f, body, pre, hf, he⟩ := checkDomain_fileEvents w cfg domain t
    refine ⟨f, body, pre, hf, he, ?_⟩
    intro hok
    rw [he]
    simp [(hok _ _).1, (hok _ _).2]
  · intro domains schedule s hs hret
    have hinv := inv_exec w cfg domains schedule _ s (inv_init w cfg domains) hs
    obtain ⟨h1, h2, -, h4, h5, h6⟩ := hinv.returned_records hret
    exact ⟨h1, h2, h4, h5, h6⟩
  · intro hcap domains
    exact exec_returns w cfg hcap domains (State.init domains) rfl rfl rfl rfl rfl

theorem checkDomain_one_record_witness :
    checkAllDomains deadWorld defaultConfig ["a.invalid", "b.invalid"] twoDomainSchedule =
        some twoDomainFinal ∧
      twoDomainFinal.returned = true ∧
      twoDomainFinal.trace.countP Event.isOpen = 2 ∧
      twoDomainFinal.trace.countP Event.isWrite = 2 :=
  ⟨rfl, rfl,
    ((checkDomain_one_record deadWorld defaultConfig).2.2.1 ["a.invalid", "b.invalid"]
      twoDomainSchedule twoDomainFinal rfl rfl).2.2.1,
    ((checkDomain_one_record deadWorld defaultConfig).2.2.1 ["a.invalid", "b.invalid"]
      twoDomainSchedule twoDomainFinal rfl rfl).2.2.2.2
      (fun _ _ => ⟨rfl, fun _ => rfl⟩)⟩

/-- C10. In every state that `checkAllDomains` can reach, under any schedule and any behaviour
of the outside world, the number of `checkDomain` calls in flight equals the number of elements
in the buffer of `sem` and does not exceed `maxConcurrentChecks`.  A step that starts an
evaluation is a send on `sem` taken when fewer than `maxConcurrentChecks` evaluations are in
flight; the calling goroutine starts none; and a step that ends an evaluation takes its element
out of the buffer. -/
theorem checkAllDomains_bounded (w : World) (cfg : Config) (domains : List String)
    (schedule : List (Option Nat)) (s : State)
    (hs : checkAllDomains w cfg domains schedule = some s) :
    s.inFlight ≤ cfg.maxConcurrentChecks ∧
      s.sem = s.inFlight ∧
      (∀ i s1, stepGoroutine w cfg i s = some s1 → s.inFlight < s1.inFlight →
        s.inFlight < cfg.maxConcurrentChecks ∧ s1.sem = s.sem + 1 ∧
          s1.inFlight = s.inFlight + 1) ∧
      (∀ s1, stepMain s = some s1 → s1.inFlight = s.inFlight) ∧
      (∀ i s1, stepGoroutine w cfg i s = some s1 → s1.inFlight < s.inFlight →
        s1.sem + 1 = s.sem ∧ s1.inFlight + 1 = s.inFlight) := by
  have hinv := inv_exec w cfg domains schedule _ s (inv_init w cfg domains) hs
  have hle : s.inFlight ≤ cfg.maxConcurrentChecks := by
    rw [← hinv.sem_eq]; exact hinv.sem_le
  refine ⟨hle, hinv.sem_eq, ?_, ?_, ?_⟩
  · intro i s1 hstep hlt
    have hinv1 := inv_stepGoroutine w cfg domains i s s1 hinv hstep
    have e := hinv.sem_eq
    have e1 := hinv1.sem_eq
    have l1 := hinv1.sem_le
    rcases stepGoroutine_sem w cfg i s s1 hstep with ⟨h, -⟩ | h | h <;> omega
  · intro s1 hstep
    have hinv1 := inv_stepMain w cfg domains s s1 hinv hstep
    have e := hinv.sem_eq
    have e1 := hinv1.sem_eq
    have hsem : s1.sem = s.sem := by
      unfold stepMain at hstep
      split at hstep
      · split at hstep <;> simp only [Option.some.injEq] at hstep <;> subst hstep <;> rfl
      · split at hstep
        · cases hstep
        · split at hstep
          · simp only [Option.some.injEq] at hstep; subst hstep; rfl
          · cases hstep
    omega
  · intro i s1 hstep hlt
    have hinv1 := inv_stepGoroutine w cfg domains i s s1 hinv hstep
    have e := hinv.sem_eq
    have e1 := hinv1.sem_eq
    rcases stepGoroutine_sem w cfg i s s1 hstep with ⟨h, -⟩ | h | h <;> omega

theorem checkAllDomains_bounded_witness :
    checkAllDomains deadWorld oneSlotConfig ["a.invalid", "b.invalid"]
        [none, none, none, none, some 0] = some oneSlotBusy ∧
      oneSlotBusy.inFlight = 1 ∧
      oneSlotBusy.inFlight ≤ oneSlotConfig.maxConcurrentChecks ∧
      stepGoroutine deadWorld oneSlotConfig 1 oneSlotBusy = none :=
  ⟨rfl, rfl,
    (checkAllDomains_bounded deadWorld oneSlotConfig ["a.invalid", "b.invalid"]
      [none, none, none, none, some 0] oneSlotBusy rfl).1,
    rfl⟩

theorem checkDomain_active_iff_witness :
    appendsTo "active_domains.txt"
        ((checkDomain defaultConfig "example.com").run (liveWorld true) []).2 = true ∧
      writesTo "active_domains.txt"
        ((checkDomain defaultConfig "example.com").run (liveWorld true) []).2 = true ∧
      appendsTo "inactive_domains.txt"
        ((checkDomain defaultConfig "example.com").run (liveWorld false) []).2 = true ∧
      writesTo "inactive_domains.txt"
        ((checkDomain defaultConfig "example.com").run (liveWorld false) []).2 = true ∧
      Event.WriteString "active_domains.txt" "http://example.com\n" 19 ∈
        ((checkDomain defaultConfig "example.com").run (liveWorld true) []).2 ∧
      Event.WriteString "inactive_domains.txt" "example.com\n" 12 ∈
        ((checkDomain defaultConfig "example.com").run (liveWorld false) []).2 :=
  ⟨(checkDomain_active_iff (liveWorld true) defaultConfig "example.com" []).1.2
      ⟨rfl, Or.inl ⟨_, rfl, by decide, rfl⟩⟩,
    ((checkDomain_active_iff (liveWorld true) defaultConfig "example.com" []).2.2.2.2
      (fun _ _ => ⟨rfl, fun _ => rfl⟩)).1.trans (by decide),
    (checkDomain_active_iff (liveWorld false) defaultConfig "example.com" []).2.1.2 (by decide),
    ((checkDomain_active_iff (liveWorld false) defaultConfig "example.com" []).2.2.2.2
      (fun _ _ => ⟨rfl, fun _ => rfl⟩)).2.trans (by decide),
    by decide, by decide⟩

theorem checkDomain_unresolvable_witness :
    deadWorld.LookupHost [] "nx.invalid" = false ∧
      ((checkDomain defaultConfig "nx.invalid").run deadWorld []).2 =
        [Event.LookupHost "nx.invalid" false, Event.OpenFile "inactive_domains.txt" true,
          Event.WriteString "inactive_domains.txt" "nx.invalid\n" 11] :=
  ⟨rfl, (checkDomain_unresolvable deadWorld defaultConfig "nx.invalid" [] rfl).1⟩

theorem checkDomain_http_first_witness :
    (liveWorld true).LookupHost [] "example.com" = true ∧
      accepted defaultConfig
        ((tryRequest defaultConfig ("http://" ++ "example.com")).run (liveWorld true)
          ([] ++ [Event.LookupHost "example.com" true])).1 = true ∧
      Event.Do ("https://" ++ "example.com") none ∉
        ((checkDomain defaultConfig "example.com").run (liveWorld true) []).2 := by
  obtain ⟨rest, -, -, -, h⟩ :=
    checkDomain_http_first (liveWorld true) defaultConfig "example.com" [] rfl
  exact ⟨rfl, by decide, (h (by decide)).2 none⟩

theorem checkDomain_render_failure_witness :
    (liveWorld false).LookupHost [] "example.com" = true ∧
      appendsTo "inactive_domains.txt"
        ((checkDomain defaultConfig "example.com").run (liveWorld false) []).2 = true ∧
      appendsTo "active_domains.txt"
        ((checkDomain defaultConfig "example.com").run (liveWorld false) []).2 = false ∧
      Event.WriteString "inactive_domains.txt" "example.com\n" 12 ∈
        ((checkDomain defaultConfig "example.com").run (liveWorld false) []).2 ∧
      writesTo "inactive_domains.txt"
        ((checkDomain defaultConfig "example.com").run (liveWorld false) []).2 = true :=
  ⟨rfl,
    (checkDomain_render_failure (liveWorld false) defaultConfig "example.com" [] "http://"
      { StatusCode := 200, URLString := "http://example.com/", URLHostname := "example.com" }
      [Event.Do "http://example.com"
        (some { StatusCode := 200, URLString := "http://example.com/",
                URLHostname := "example.com" })]
      rfl (by decide) rfl).2.1,
    (checkDomain_render_failure (liveWorld false) defaultConfig "example.com" [] "http://"
      { StatusCode := 200, URLString := "http://example.com/", URLHostname := "example.com" }
      [Event.Do "http://example.com"
        (some { StatusCode := 200, URLString := "http://example.com/",
                URLHostname := "example.com" })]
      rfl (by decide) rfl).2.2.1,
    ((checkDomain_render_failure (liveWorld false) defaultConfig "example.com" [] "http://"
      { StatusCode := 200, URLString := "http://example.com/", URLHostname := "example.com" }
      [Event.Do "http://example.com"
        (some { StatusCode := 200, URLString := "http://example.com/",
                URLHostname := "example.com" })]
      rfl (by decide) rfl).2.2.2.2.2.2 (fun _ _ => ⟨rfl, fun _ => rfl⟩)).1,
    by decide⟩

theorem checkDomain_active_line_witness :
    redirectWorld.LookupHost [] "example.com" = true ∧
      ((checkDomain defaultConfig "example.com").run redirectWorld []).2.filter Event.isFile =
        [Event.OpenFile "active_domains.txt" true,
          Event.WriteString "active_domains.txt"
            "http://example.com (Redirected to: www.example.com)\n" 52] :=
  ⟨rfl,
    (checkDomain_active_line redirectWorld defaultConfig "example.com" [] "http://"
      { StatusCode := 200, URLString := "https://www.example.com/",
        URLHostname := "www.example.com" }
      [Event.Do "http://example.com"
        (some { StatusCode := 200, URLString := "https://www.example.com/",
                URLHostname := "www.example.com" })]
      rfl (by decide) rfl).2.2.1 (fun _ _ => ⟨rfl, fun _ => rfl⟩)⟩

theorem tryRequest_retries_witness :
    flakyWorld.NewRequest "http://example.com" = true ∧
      ((tryRequest defaultConfig "http://example.com").run flakyWorld []).1 = none ∧
      ((tryRequest defaultConfig "http://example.com").run flakyWorld []).2 =
        List.replicate 2 (Event.Do "http://example.com" none) :=
  ⟨rfl,
    (tryRequest_retries flakyWorld defaultConfig "http://example.com" [] rfl).1.2 (by decide),
    (tryRequest_retries flakyWorld defaultConfig "http://example.com" [] rfl).2.1 (by decide)⟩

theorem mainStatusCodes_entries_witness :
    (TrimSpace " 200abc ").data = [] ++ ['2', '0', '0'] ++ ['a', 'b', 'c'] ∧
      Sscanf (TrimSpace " 200abc ") = 200 ∧ Sscanf (TrimSpace "abc") = 0 :=
  ⟨by decide,
    (mainStatusCodes_entries.2.2.1 " 200abc " [] ['2', '0', '0'] ['a', 'b', 'c'] (by decide)
      (Or.inl rfl) (by decide) (by decide) (by decide)).trans (by decide),
    mainStatusCodes_entries.2.2.2.1 "abc" (by
      intro sgn d rest h hs
      have h2 : sgn ++ d :: rest = ['a', 'b', 'c'] := h.symm.trans (by decide)
      rcases hs with rfl | rfl | rfl
      · simp only [List.nil_append, List.cons.injEq] at h2
        rw [h2.1]; decide
      · simp at h2
      · simp at h2)⟩

theorem readDomainsFromFile_lines_witness :
    readDomainsFromFile
        (fun _ => Except.ok { lines := ["example.com", "", "  b.invalid  "], err := none })
        "domains.txt" = (["example.com", "b.invalid"], none) :=
  (readDomainsFromFile_lines
    (fun _ => Except.ok { lines := ["example.com", "", "  b.invalid  "], err := none })
    "domains.txt" { lines := ["example.com", "", "  b.invalid  "], err := none } rfl rfl).1.trans
    (by decide)

end DomainChecker
